import Mathlib

/-!
Verification development for the lightbeam core: the Microwasm converter
(`crates/lightbeam/src/microwasm.rs`) and the translation driver
(`crates/lightbeam/src/function_body.rs`).  Pure data and control flow are
embedded shallowly; the backend (register allocator, assembler) and the
error-constructor helpers live outside the two source files and are
modelled from the spec where noted.
-/

namespace Lightbeam

/-- Width of an integer or float type (`Size` in microwasm.rs). -/
inductive Size where
  | s32
  | s64
deriving DecidableEq, Repr

/-- Whether to interpret an integer as signed or unsigned (`Signedness`). -/
inductive Signedness where
  | signed
  | unsigned
deriving DecidableEq, Repr

/-- The four ground value types, `Type<Size>` / `SignlessType` in microwasm.rs. -/
inductive SignlessType where
  | int (s : Size)
  | float (s : Size)
deriving DecidableEq, Repr

/-- The constant `I32` from microwasm.rs. -/
def I32 : SignlessType := .int .s32

/-- The constant `I64` from microwasm.rs. -/
def I64 : SignlessType := .int .s64

/-- The constant `F32` from microwasm.rs. -/
def F32 : SignlessType := .float .s32

/-- The constant `F64` from microwasm.rs. -/
def F64 : SignlessType := .float .s64

/-- A constant value embedded in the instructions (`Value` in microwasm.rs).
Integers are Rust `i32`/`i64` values, floats raw IEEE-754 bit patterns; the
core never computes with them, so `Int`/`Nat` carry them faithfully. -/
inductive Value where
  | i32 (v : Int)
  | i64 (v : Int)
  | f32 (bits : Nat)
  | f64 (bits : Nat)
deriving DecidableEq, Repr

/-- The saturating three-state caller counter (`NumCallers` in microwasm.rs). -/
inductive NumCallers where
  | zero
  | one
  | many
deriving DecidableEq, Repr

/-- `NumCallers::inc` (microwasm.rs lines 581-586): saturating increment. -/
def NumCallers.inc : NumCallers → NumCallers
  | .zero => .one
  | .one => .many
  | .many => .many

/-- `NumCallers::incremented` (microwasm.rs lines 588-592). -/
def NumCallers.incremented (n : NumCallers) : NumCallers := n.inc

/-- `NumCallers::is_zero`. -/
def NumCallers.isZero (n : NumCallers) : Bool := n = NumCallers.zero

/-- `NumCallers::is_many`. -/
def NumCallers.isMany (n : NumCallers) : Bool := n = NumCallers.many

/-- `Ord` on `NumCallers` is derived positionally in the source
(`Zero < One < Many`); `max` uses it. -/
def NumCallers.rank : NumCallers → Nat
  | .zero => 0
  | .one => 1
  | .many => 2

/-- The `max` of two caller counts, as used at function_body.rs line 612. -/
def NumCallers.maxC (a b : NumCallers) : NumCallers :=
  if a.rank < b.rank then b else a

/-- Label-name tags (`NameTag` in microwasm.rs). -/
inductive NameTag where
  | header
  | elseTag
  | endTag
  | internal
deriving DecidableEq, Repr

/-- `WasmLabel = (u32, NameTag)`. -/
abbrev WasmLabel := Nat × NameTag

/-- A branch target: the function return or a declared label (`BrTarget`). -/
inductive BrTarget (L : Type) where
  | ret
  | label (l : L)
deriving DecidableEq, Repr

/-- An inclusive range of stack depths, `RangeInclusive<u32>` as a pair
(start, end). -/
abbrev DepthRange := Nat × Nat

/-- A branch target paired with the optional range of stack slots to drop
before arriving (`BrTargetDrop`). -/
structure BrTargetDrop (L : Type) where
  target : BrTarget L
  toDrop : Option DepthRange
deriving DecidableEq, Repr

/-- The target table of an `End` operator (`Targets`). -/
structure Targets (L : Type) where
  targets : List (BrTargetDrop L)
  default : BrTargetDrop L
deriving DecidableEq, Repr

/-- Block parameter description (`Params`).  The `debug_assertions` variant
stores the list of types; the release variant stores only its length, which
`Params::len` recovers, so the list carries both. -/
abbrev Params := List SignlessType

/-- The Microwasm operator language (`Operator<Label>` in microwasm.rs),
restricted to the constructors exercised by the converter subset and the
driver claims under study; the remaining straight-line arithmetic
constructors all take the same single-backend-call path in the driver. -/
inductive Operator (L : Type) where
  | unreachable
  | declare (label : L) (params : Params) (hasBackwardsCallers : Bool)
      (numCallers : NumCallers)
  | start (label : L)
  | endOp (t : Targets L)
  | const (v : Value)
  | dropOp (r : DepthRange)
  | pick (depth : Nat)
  | swap (depth : Nat)
deriving DecidableEq, Repr

/-- A Wasm source offset attached to an operator (`WithLoc`); the
`SourceLoc` payload is a `u32` byte offset. -/
structure WithLoc (T : Type) where
  op : T
  offset : Nat
deriving DecidableEq, Repr

/-- Checked subtraction, `u32::checked_sub`. -/
def checkedSub (a b : Nat) : Option Nat :=
  if b ≤ a then some (a - b) else none

/-- Type of a control frame (`ControlFrameKind` in microwasm.rs). -/
inductive ControlFrameKind where
  | blockFrame (needsEndLabel : Bool)
  | functionFrame
  | loopFrame
  | ifFrame (hasElse : Bool)
deriving DecidableEq, Repr

/-- A converter control frame (`ControlFrame`). -/
structure ControlFrame where
  id : Nat
  arguments : Nat
  returns : List SignlessType
  kind : ControlFrameKind
deriving DecidableEq, Repr

/-- The `to_drop!` macro (microwasm.rs lines 1772-1795): the inclusive
range of stack depths a branch to `block` must discard, given the current
type-stack length `len`. -/
def toDrop (block : ControlFrame) (len : Nat) : Option DepthRange :=
  let firstNonLocalDepth := block.returns.length
  let lastNonLocalDepth? :=
    if block.kind = ControlFrameKind.functionFrame then
      checkedSub len 1
    else
      (checkedSub len 1).bind (fun x => checkedSub x block.arguments)
  match lastNonLocalDepth? with
  | none => none
  | some lastNonLocalDepth =>
      if firstNonLocalDepth ≤ lastNonLocalDepth then
        some (firstNonLocalDepth, lastNonLocalDepth)
      else
        none

/-- The unified error type.  Modelled from the spec (§6: "a unified error
type with variants at least Input(msg), Microwasm(msg)"); `error.rs` is not
part of the sources under study.  The extra `panik` constructor records a
Rust panic (an abort, not a returned error), so that theorems can
distinguish panicking from returning an error. -/
inductive Err where
  | input (msg : String)
  | microwasm (msg : String)
  | panik (msg : String)
deriving DecidableEq, Repr

/-- A component of an abstract operator signature (`SigT`): either the
single type variable `T` or a concrete type. -/
inductive SigT where
  | tvar
  | concrete (ty : SignlessType)
deriving DecidableEq, Repr

/-- An abstract operator signature (`OpSig`). -/
structure OpSig where
  input : List SigT
  output : List SigT
deriving DecidableEq, Repr

/-- `OpSig::none`. -/
def OpSig.noneSig : OpSig := ⟨[], []⟩

/-- A function signature from the module context (params and returns),
standing in for `ModuleContext::signature`. -/
structure FuncSig where
  params : List SignlessType
  returns : List SignlessType
deriving DecidableEq, Repr

/-- A Wasm block type annotation, `wasmparser::TypeOrFuncType`: either an
optional single result type or an index into the module's signatures. -/
inductive TypeOrFuncType where
  | blockType (ty : Option SignlessType)
  | funcType (idx : Nat)
deriving DecidableEq, Repr

/-- The raw Wasm operators handled by the converter embedding.  This is the
subset of `wasmparser::Operator` exercised by the claims; every omitted
operator takes one of the same code paths in `MicrowasmConv::next`. -/
inductive WasmOperator where
  | nop
  | loopOp (ty : TypeOrFuncType)
  | localGet (localIndex : Nat)
  | localSet (localIndex : Nat)
  | localTee (localIndex : Nat)
  | i32Const (value : Int)
deriving DecidableEq, Repr

/-- Converter state (`MicrowasmConv` in microwasm.rs).  The operator reader
and module reference are passed separately; `controlFrames` stores the
innermost frame at the head (the source keeps it at the end of a `Vec` and
indexes from the top).  The type stack `stack` keeps the Rust `Vec` order:
bottom of the stack at the head of the list, top at the end. -/
structure MicrowasmConvSt where
  isDone : Bool
  constsToEmit : Option (List Value)
  stack : List SignlessType
  sigs : List FuncSig
  currentId : Nat
  controlFrames : List ControlFrame
  unreachableFlag : Bool
deriving DecidableEq, Repr

/-- `MicrowasmConv::type_or_func_type_to_sig` (microwasm.rs lines
1240-1267): params and returns of a block type.  A missing signature index
would panic inside the module context. -/
def typeOrFuncTypeToSig (c : MicrowasmConvSt) (ty : TypeOrFuncType) :
    Except Err (List SignlessType × List SignlessType) :=
  match ty with
  | .blockType t => .ok ([], t.toList)
  | .funcType i =>
      match c.sigs.get? i with
      | some s => .ok (s.params, s.returns)
      | none => .error (.panik "signature index out of range")

/-- `MicrowasmConv::op_sig` (microwasm.rs lines 1269-1575) for the operator
subset.  For the local operators the source reads
`self.stack[*local_index as usize]`, a `Vec` index that panics when the
index is not below the stack length. -/
def opSig (c : MicrowasmConvSt) (op : WasmOperator) : Except Err OpSig :=
  match op with
  | .nop => .ok OpSig.noneSig
  | .loopOp ty => do
      let (input, _) ← typeOrFuncTypeToSig c ty
      let input := input.map SigT.concrete
      .ok ⟨input, input⟩
  | .localGet i =>
      match c.stack.get? i with
      | none => .error (.panik "index out of bounds")
      | some ty => .ok ⟨[], [.concrete ty]⟩
  | .localSet i =>
      match c.stack.get? i with
      | none => .error (.panik "index out of bounds")
      | some ty => .ok ⟨[.concrete ty], []⟩
  | .localTee i =>
      match c.stack.get? i with
      | none => .error (.panik "index out of bounds")
      | some ty => .ok ⟨[.concrete ty], [.concrete ty]⟩
  | .i32Const _ => .ok ⟨[], [.concrete I32]⟩

/-- One pop step of `MicrowasmConv::apply_op`: pop the top of the type
stack and check it against one signature input, unifying the type
variable.  The state pairs the stack with the `ty_param` unifier; the
source computes `(ty, tp)` by a match and then compares `ty` with the
popped type, which this definition writes with the comparison pushed
into each match arm (in the `T`-with-unset-parameter arm the comparison
is between the popped type and itself). -/
def applyOpPop (st : List SignlessType × Option SignlessType) (p : SigT) :
    Except Err (List SignlessType × Option SignlessType) :=
  match st.1.getLast? with
  | none => .error (.microwasm "Stack is empty")
  | some stackTy =>
      match p with
      | SigT.tvar =>
          match st.2 with
          | some t =>
              if t = stackTy then .ok (st.1.dropLast, st.2)
              else .error (.microwasm "Error in params: type mismatch")
          | none =>
              if stackTy = stackTy then .ok (st.1.dropLast, some stackTy)
              else .error (.microwasm "Error in params: type mismatch")
      | SigT.concrete t =>
          if t = stackTy then .ok (st.1.dropLast, st.2)
          else .error (.microwasm "Error in params: type mismatch")

/-- One push step of `MicrowasmConv::apply_op`'s output loop: push one
output type, resolving the type variable through `ty_param`. -/
def applyOpPush (tyParam : Option SignlessType) (st : List SignlessType)
    (p : SigT) : Except Err (List SignlessType) :=
  match p with
  | SigT.tvar =>
      match tyParam with
      | some t => .ok (st ++ [t])
      | none => .error (.microwasm "Type parameter was not set")
  | SigT.concrete t => .ok (st ++ [t])

/-- `MicrowasmConv::apply_op` (microwasm.rs lines 1587-1627): pop the
inputs in reverse order (unifying the type variable `T`), then push the
outputs, also iterated in reverse order. -/
def applyOp (stack : List SignlessType) (sig : OpSig) :
    Except Err (List SignlessType) := do
  let (stack, tyParam) ← sig.input.reverse.foldlM applyOpPop (stack, none)
  sig.output.reverse.foldlM (applyOpPush tyParam) stack

/-- `MicrowasmConv::block_params` (microwasm.rs lines 1629-1631): the full
current type stack. -/
def blockParams (c : MicrowasmConvSt) : Params := c.stack

/-- `MicrowasmConv::block_params_with_wasm_type` (microwasm.rs lines
1633-1674): the stack below the block's parameters, followed by the
block's returns. -/
def blockParamsWithWasmType (c : MicrowasmConvSt) (ty : TypeOrFuncType) :
    Except Err Params := do
  let (params, returns) ← typeOrFuncTypeToSig c ty
  .ok (c.stack.take (c.stack.length - params.length) ++ returns)

/-- `MicrowasmConv::local_depth` (microwasm.rs lines 1583-1585), computed
in `i32` in the source; the values involved fit in `i32` for any stack the
converter can build, so `Int` carries them exactly. -/
def localDepth (c : MicrowasmConvSt) (idx : Nat) : Int :=
  (c.stack.length : Int) - 1 - (idx : Int)

/-- Rewrap an `apply_op` error as the source does at microwasm.rs lines
1906-1907 (`format!("{} (in {:?})", e, op)`). -/
def wrapApplyErr : Err → Err
  | .microwasm m => .microwasm (m ++ " (in op)")
  | e => e

/-- One step of `MicrowasmConv::next` on its normal emission path
(microwasm.rs lines 1902-2530): the constants have been drained, the
converter is reachable and not done.  Reads one Wasm operator, computes
its signature, applies it to the type stack, and returns the emitted
Microwasm operators together with the new converter state. -/
def convStep (c : MicrowasmConvSt) (op : WasmOperator) :
    Except Err (List (Operator WasmLabel) × MicrowasmConvSt) := do
  let sig ← opSig c op
  let stack ← (applyOp c.stack sig).mapError wrapApplyErr
  let c := { c with stack := stack }
  match op with
  | .nop => pure ([], c)
  | .loopOp ty =>
      let id := c.currentId
      let c := { c with currentId := id + 1 }
      let (_, returns) ← typeOrFuncTypeToSig c ty
      let frame : ControlFrame := ⟨id, c.stack.length, returns, .loopFrame⟩
      let c := { c with controlFrames := frame :: c.controlFrames }
      let bptw ← blockParamsWithWasmType c ty
      let label : WasmLabel := (id, .header)
      pure ([Operator.declare label (blockParams c) true .many,
             Operator.declare (id, NameTag.endTag) bptw false .many,
             Operator.const (.i32 0),
             Operator.endOp ⟨[], ⟨.label label, none⟩⟩,
             Operator.start label], c)
  | .localGet i =>
      let d : Int := localDepth c i - 1
      if d < 0 then throw (Err.microwasm "LocalGet - Local out of range")
      else pure ([Operator.pick d.toNat], c)
  | .localSet i =>
      let d : Int := localDepth c i + 1
      if d < 0 then throw (Err.microwasm "LocalSet - Local out of range")
      else pure ([Operator.swap d.toNat, Operator.dropOp (0, 0)], c)
  | .localTee i =>
      let d : Int := localDepth c i + 1
      if d < 0 then throw (Err.microwasm "LocalTee - Local out of range")
      else pure ([Operator.pick 0, Operator.swap d.toNat,
                  Operator.dropOp (0, 0)], c)
  | .i32Const v => pure ([Operator.const (.i32 v)], c)

/-- Modelled from the spec (Glossary, §4.3): a physical operand location,
`ValueLocation` from the backend, which is outside the sources under
study — a register, a stack slot, or an immediate constant. -/
inductive ValueLocation where
  | reg (n : Nat)
  | stack (n : Nat)
  | imm (v : Value)
deriving DecidableEq, Repr

/-- Modelled from the spec: `CCLoc`, a concrete (register or stack)
location; unlike `ValueLocation` it cannot be an immediate. -/
inductive CCLoc where
  | reg (n : Nat)
  | stack (n : Nat)
deriving DecidableEq, Repr

/-- `CCLoc::try_from(ValueLocation)`: immediates have no concrete slot. -/
def ccLocTryFrom : ValueLocation → Option CCLoc
  | .reg n => some (.reg n)
  | .stack n => some (.stack n)
  | .imm _ => none

/-- Injection of a concrete location back into `ValueLocation`. -/
def ccLocToVal : CCLoc → ValueLocation
  | .reg n => .reg n
  | .stack n => .stack n

/-- `MaybeCCLoc` from the backend: a serialization directive per operand
slot used by `serialize_block_args`. -/
inductive MaybeCCLoc where
  | concrete (c : CCLoc)
  | serialize
  | noSerialize
deriving DecidableEq, Repr

/-- Modelled from the spec (Glossary "Calling convention"): the agreed
physical layout of a block's operands — `locs` models `arguments.locs`,
`maxDepth` models `arguments.max_depth`, and `depth` the optional required
stack depth.  The concrete `StackDepth` representation lives in the
backend, outside the sources under study; a `Nat` stands in for it. -/
structure CC where
  locs : List ValueLocation
  maxDepth : Nat
  depth : Option Nat
deriving DecidableEq, Repr

/-- Modelled from the spec (§6): the backend's `ret_locs`, computing the
return-value locations for a list of return types. -/
def retLocs (returns : List SignlessType) : List ValueLocation :=
  (List.range returns.length).map ValueLocation.reg

/-- Modelled from the spec (§4.2): `CallingConvention::function_start`, the
convention holding at function entry, with the function-start stack
depth. -/
def ccFunctionStart (locs : List ValueLocation) : CC :=
  ⟨locs, locs.length, some 0⟩

/-- Modelled from the spec (§4.3 step 3): the backend's
`serialize_block_args`.  Each operand slot keeps a concrete location when
one is given, is spilled to a stack slot for `Serialize`, and keeps its
current location for `NoSerialize`; fails when the abstract stack has
fewer values than requested slots. -/
def serializeBlockArgs (vstack : List ValueLocation) (locs : List MaybeCCLoc)
    (depth : Option Nat) : Except Err (CC × List ValueLocation) :=
  if locs.length ≤ vstack.length then
    let top := vstack.drop (vstack.length - locs.length)
    let args := (locs.zip top).enum.map fun x =>
      match x.2.1 with
      | MaybeCCLoc.concrete c => ccLocToVal c
      | MaybeCCLoc.serialize => ValueLocation.stack x.1
      | MaybeCCLoc.noSerialize => x.2.2
    .ok (⟨args, vstack.length, depth⟩,
         vstack.take (vstack.length - locs.length) ++ args)
  else .error (.microwasm "serialize_block_args: stack too small")

/-- Modelled from the spec (§6): `ctx.pop()`, popping the backend's
abstract value stack. -/
def ctxPop (vstack : List ValueLocation) :
    Except Err (ValueLocation × List ValueLocation) :=
  match vstack.getLast? with
  | some v => .ok (v, vstack.dropLast)
  | none => .error (.microwasm "pop from empty stack")

/-- Modelled from the spec (§6): `virtual_calling_convention`, a
convention reflecting the current abstract stack, with no pinned depth. -/
def virtualCC (vstack : List ValueLocation) : CC :=
  ⟨vstack, vstack.length, none⟩

/-- Per-label driver state (`Block` in function_body.rs lines 22-34).  The
`label` field is the backend machine-label handle (`BrTarget<Label>`),
with backend labels modelled as allocation-counter values. -/
structure Block where
  label : BrTarget Nat
  callingConvention : Option CC
  params : Nat
  isNext : Bool
  alreadyEmitted : Bool
  numCallers : NumCallers
  actualNumCallers : NumCallers
  hasBackwardsCallers : Bool
deriving DecidableEq, Repr

/-- The driver's label table, `HashMap<BrTarget<L>, Block>`. -/
def Blocks (L : Type) := BrTarget L → Option Block

/-- The empty table. -/
def Blocks.empty {L : Type} : Blocks L := fun _ => none

/-- `HashMap::insert` (replacing any existing entry). -/
def Blocks.insert {L : Type} [DecidableEq L] (bs : Blocks L) (k : BrTarget L)
    (v : Block) : Blocks L :=
  fun t => if t = k then some v else bs t

/-- `HashMap::get`. -/
def Blocks.find {L : Type} (bs : Blocks L) (k : BrTarget L) : Option Block :=
  bs k

/-- `Entry::remove_entry`. -/
def Blocks.remove {L : Type} [DecidableEq L] (bs : Blocks L) (k : BrTarget L) :
    Blocks L :=
  fun t => if t = k then none else bs t

/-- The `MakeInternalLabel` trait (function_body.rs lines 96-102), with
the associated `Id` type specialized to `Nat` as in the `WasmLabel`
instance. -/
class MakeInternalLabel (L : Type) where
  firstId : Nat
  newInternal : Nat → L × Nat

/-- The `MakeInternalLabel` implementation for `WasmLabel` (microwasm.rs
lines 374-382). -/
instance : MakeInternalLabel WasmLabel :=
  ⟨0, fun id => ((id, NameTag.internal), id + 1)⟩

/-- The content of an operator-offset map entry: the boxed `Display`
value pushed at function_body.rs lines 145-148 (`start .Fn{idx}:`) or
lines 320-326 (`DisassemblyOpFormatter` of the operator and its source
offset). -/
inductive OpFmt (L : Type) where
  | fnStart (idx : Nat)
  | op (o : Operator L) (offset : Nat)
deriving DecidableEq, Repr

/-- The mutable state threaded through the `translate` loop:
the block table, the adaptor queue (`additional_instructions` and its
source offset), the internal-label and backend-label allocators, the
local operator-offset map, and the backend context view (assembler
offset and abstract value stack) together with the offsets sink. -/
structure DriverSt (L : Type) where
  blocks : Blocks L
  additional : List (Operator L)
  additionalOffset : Nat
  internalId : Nat
  nextLabel : Nat
  opOffsetMap : List (Nat × OpFmt L)
  asmOffset : Nat
  vstack : List ValueLocation
  offsetsSink : List (Nat × Nat)

/-- The `error` helper from error.rs (not among the sources): modelled
from the spec (§6, "only string-tagged semantic errors arise from the
core") as constructing a string-tagged input error. -/
def errS (msg : String) : Err := .input msg

/-- The hard error raised at function_body.rs lines 530-535 when branch
targets require incompatible stack depths. -/
def rspConflictErr : Err :=
  errS "Tried to do a conditional jump with targets that require different values for `rsp`"

/-- The hard error raised at function_body.rs lines 720-725 during
convention propagation. -/
def progRspErr : Err :=
  errS "Programmer error: Tried to conditionally jump to targets that require different values for `rsp`"

/-- The element count of an optional `RangeInclusive<u32>`
(`to_drop.clone().count()`). -/
def rangeCount : Option DepthRange → Nat
  | none => 0
  | some r => if r.1 ≤ r.2 then r.2 - r.1 + 1 else 0

/-- The local `drop_elements` helper (function_body.rs lines 116-132):
remove the stack elements at the given inclusive depth range, measured
from the top; on index underflow it silently does nothing.  Rust's
`Vec::drain(s..=e)` panics when `s > e + 1`; that cannot happen for the
ranges `to_drop!` produces, and the model leaves the stack unchanged
there. -/
def dropElements {α : Type} (stack : List α) (depths : DepthRange) : List α :=
  match (checkedSub stack.length 1).bind (fun x => checkedSub x depths.2),
        (checkedSub stack.length 1).bind (fun x => checkedSub x depths.1) with
  | some s, some e =>
      if s ≤ e + 1 then stack.take s ++ stack.drop (e + 1) else stack
  | _, _ => stack

/-- `cc_to_param_locs` (function_body.rs lines 468-489): project a
convention through its `to_drop` range to the common `params` length,
inserting `None` placeholders for dropped positions and the trailing
selector slot.  Returns `none` where the source's `.unwrap()` at line 481
would panic. -/
def ccToParamLocs (params : Nat) (cc : CC) (toDrop : Option DepthRange) :
    Option (List (Option ValueLocation)) :=
  let start0 := match toDrop with | some r => r.1 | none => 0
  let count := rangeCount toDrop
  let len := cc.locs.length
  let start := len - start0
  match checkedSub params (len + count) with
  | none => none
  | some extra =>
      some (List.replicate extra none ++ (cc.locs.take start).map some ++
            List.replicate count none ++ (cc.locs.drop start).map some ++
            [none])

/-- The `tmp_num_callers` closure (function_body.rs lines 491-497). -/
def tmpNumCallers (b : Block) : NumCallers :=
  if b.isNext && !b.hasBackwardsCallers then b.actualNumCallers.incremented
  else b.numCallers

/-- The depth-reconciliation match (function_body.rs lines 524-536):
given the candidate convention's depth, a target's recorded depth and
whether the target was already emitted, either keep the recorded depth,
clear it (not-yet-emitted target), or fail with the `rsp` conflict
error.  Returns the target's new recorded depth. -/
def reconcileDepth (ccDepth blockDepth : Option Nat) (alreadyEmitted : Bool) :
    Except Err (Option Nat) :=
  match blockDepth with
  | none => .ok none
  | some b =>
      match ccDepth with
      | some a =>
          if a = b then .ok (some b)
          else if alreadyEmitted then .error rspConflictErr
          else .ok none
      | none =>
          if alreadyEmitted then .error rspConflictErr else .ok none

/-- The location-agreement test of function_body.rs lines 540-558: all
concrete pairs of projected locations must coincide. -/
def locsAgree (blockLocs curLocs : List (Option ValueLocation)) : Bool :=
  (blockLocs.zip curLocs).all fun p =>
    match p.1, p.2 with
    | some a, some b => decide (a = b)
    | _, _ => true

/-- Accumulator for the first target loop of the `End` handler
(function_body.rs lines 499-625): the block table, the candidate
convention with its `to_drop`, the running maximal caller count, the
pending adaptor operators and the label allocators. -/
structure EndAcc (L : Type) where
  blocks : Blocks L
  ccAndToDrop : Option (CC × Option DepthRange)
  maxNumCallers : NumCallers
  adaptors : List (Operator L)
  internalId : Nat
  nextLabel : Nat

/-- One iteration of the `End` handler's first target loop
(function_body.rs lines 518-625): reconcile the target's recorded
convention with the candidate, merging on agreement and synthesizing an
adaptor block on disagreement; returns the updated accumulator and the
(possibly rewritten) target. -/
def processTarget {L : Type} [DecidableEq L] [MakeInternalLabel L]
    (params : Nat) (acc : EndAcc L) (t : BrTargetDrop L) :
    Except Err (EndAcc L × BrTargetDrop L) :=
  match acc.blocks.find t.target with
  | none => .error (.panik "target not in block table")
  | some block =>
      match block.callingConvention, acc.ccAndToDrop with
      | some blockCC, some (cc, toDrop) =>
          match reconcileDepth cc.depth blockCC.depth block.alreadyEmitted with
          | .error e => .error e
          | .ok newDepth =>
              let blockCC := { blockCC with depth := newDepth }
              let blocks := acc.blocks.insert t.target
                { block with callingConvention := some blockCC }
              match ccToParamLocs params blockCC t.toDrop,
                    ccToParamLocs params cc toDrop with
              | some blockLocs, some curLocs =>
                  if locsAgree blockLocs curLocs then
                    let blockConcrete := blockLocs.countP Option.isSome
                    let curConcrete := curLocs.countP Option.isSome
                    let (cc, toDrop) :=
                      if curConcrete < blockConcrete then
                        ({ cc with locs := blockCC.locs,
                                   maxDepth := blockCC.maxDepth }, t.toDrop)
                      else (cc, toDrop)
                    let cc := { cc with depth := cc.depth.or blockCC.depth }
                    match blocks.find t.target with
                    | none => .error (.panik "target not in block table")
                    | some b2 =>
                        .ok ({ acc with
                               blocks := blocks
                               ccAndToDrop := some (cc, toDrop)
                               maxNumCallers :=
                                 acc.maxNumCallers.maxC (tmpNumCallers b2) },
                             t)
                  else
                    let (newLabel, nextId) :=
                      MakeInternalLabel.newInternal (L := L) acc.internalId
                    let adaptor : Block :=
                      { label := .label acc.nextLabel
                        callingConvention := none
                        params := block.params + rangeCount t.toDrop
                        isNext := false
                        alreadyEmitted := false
                        numCallers := .one
                        actualNumCallers := .zero
                        hasBackwardsCallers := false }
                    let blocks := blocks.insert (.label newLabel) adaptor
                    let adaptors := acc.adaptors ++
                      [Operator.start newLabel, Operator.const (.i32 0),
                       Operator.endOp ⟨[], ⟨t.target, none⟩⟩]
                    let t' := { t with target := BrTarget.label newLabel }
                    match blocks.find t'.target with
                    | none => .error (.panik "target not in block table")
                    | some b2 =>
                        .ok ({ acc with
                               blocks := blocks
                               ccAndToDrop := some (cc, toDrop)
                               adaptors := adaptors
                               internalId := nextId
                               nextLabel := acc.nextLabel + 1
                               maxNumCallers :=
                                 acc.maxNumCallers.maxC (tmpNumCallers b2) },
                             t')
              | _, _ => .error (.panik "cc_to_param_locs underflow")
      | some blockCC, none =>
          .ok ({ acc with
                 ccAndToDrop := some (blockCC, t.toDrop)
                 maxNumCallers := acc.maxNumCallers.maxC (tmpNumCallers block) },
               t)
      | none, _ =>
          .ok ({ acc with
                 maxNumCallers := acc.maxNumCallers.maxC (tmpNumCallers block) },
               t)

/-- The full first target loop of the `End` handler, folding
`processTarget` over the extra targets and collecting the possibly
rewritten targets in order. -/
def endReconcile {L : Type} [DecidableEq L] [MakeInternalLabel L]
    (params : Nat) (acc0 : EndAcc L) (targets : List (BrTargetDrop L)) :
    Except Err (EndAcc L × List (BrTargetDrop L)) :=
  targets.foldlM
    (fun s t =>
      (processTarget params s.1 t).map fun r => (r.1, s.2 ++ [r.2]))
    (acc0, [])

/-- One caller-accounting update (function_body.rs line 749):
`blocks.get_mut(&target).unwrap().actual_num_callers.inc()`.  Every
accounted target was looked up during propagation, so the `unwrap`
cannot fire; a missing entry leaves the table unchanged. -/
def incCaller {L : Type} [DecidableEq L] (bs : Blocks L) (t : BrTarget L) :
    Blocks L :=
  match bs.find t with
  | some b =>
      bs.insert t { b with actualNumCallers := b.actualNumCallers.incremented }
  | none => bs

/-- The caller-accounting phase of the `End` handler (function_body.rs
lines 692-750): increment `actual_num_callers` once for each unique
target (the extra targets together with the default; `target_set` is a
`HashSet`). -/
def accountCallers {L : Type} [DecidableEq L] (bs : Blocks L)
    (ts : List (BrTarget L)) : Blocks L :=
  ts.dedup.foldl incCaller bs

/-- The convention-propagation step of the `End` handler (function_body.rs
lines 694-746) for one target: an already-recorded convention must agree
in depth with the merged one; a target without a recorded convention
receives the merged convention projected through its `to_drop`, with the
depth cleared when the target has many callers. -/
def propagateTarget {L : Type} [DecidableEq L] (cc : CC) (bs : Blocks L)
    (t : BrTargetDrop L) : Except Err (Blocks L) :=
  match bs.find t.target with
  | none => .error (.panik "target not in block table")
  | some block =>
      match block.callingConvention with
      | some bcc =>
          match bcc.depth with
          | none => .ok bs
          | some b =>
              match cc.depth with
              | some a => if a = b then .ok bs else .error progRspErr
              | none => .error progRspErr
      | none =>
          let cc' :=
            match t.toDrop with
            | some r => { cc with locs := dropElements cc.locs r }
            | none => cc
          let cc' :=
            if (tmpNumCallers block).isMany then { cc' with depth := none }
            else cc'
          .ok (bs.insert t.target { block with callingConvention := some cc' })

/-- The serialization phase of the `End` handler (function_body.rs lines
645-690): build the merged convention and pop the branch selector.
Returns the merged convention, the selector location and the updated
abstract stack. -/
def endSerialize {L : Type} (vstack : List ValueLocation) (params : Nat)
    (acc : EndAcc L) :
    Except Err (CC × ValueLocation × List ValueLocation) :=
  match acc.ccAndToDrop with
  | some (cc, toDrop) =>
      let shouldSerialize :=
        if acc.maxNumCallers.isZero then MaybeCCLoc.serialize
        else MaybeCCLoc.noSerialize
      match ccToParamLocs params cc toDrop with
      | none => .error (.panik "cc_to_param_locs underflow")
      | some plocs =>
          let locs := plocs.map fun loc =>
            (((loc.bind ccLocTryFrom).map MaybeCCLoc.concrete).getD
              shouldSerialize)
          match serializeBlockArgs vstack locs cc.depth with
          | .error e => .error e
          | .ok (tmp, vstack) =>
              match tmp.locs.getLast? with
              | none => .error (.panik "selector pop on empty convention")
              | some selector =>
                  .ok ({ tmp with locs := tmp.locs.dropLast }, selector, vstack)
  | none =>
      if acc.maxNumCallers.isMany then
        match serializeBlockArgs vstack
          (List.replicate params MaybeCCLoc.serialize ++ [MaybeCCLoc.noSerialize])
          none with
        | .error e => .error e
        | .ok (tmp, vstack) =>
            let tmp := { tmp with depth := some tmp.maxDepth }
            match tmp.locs.getLast? with
            | none => .error (.panik "selector pop on empty convention")
            | some selector =>
                .ok ({ tmp with locs := tmp.locs.dropLast }, selector, vstack)
      else
        match ctxPop vstack with
        | .error e => .error e
        | .ok (selector, vstack) => .ok (virtualCC vstack, selector, vstack)

/-- The initial accumulator of the `End` handler's first target loop
(function_body.rs lines 499-516), derived from the default target's
block. -/
def endAcc0 {L : Type} (st : DriverSt L) (defaultT : BrTargetDrop L)
    (defBlock : Block) : EndAcc L :=
  { blocks := st.blocks
    ccAndToDrop :=
      defBlock.callingConvention.map fun cc => (cc, defaultT.toDrop)
    maxNumCallers := tmpNumCallers defBlock
    adaptors := []
    internalId := st.internalId
    nextLabel := st.nextLabel }

/-- The common parameter count of an `End`'s targets (function_body.rs
lines 507-513): the default's params plus its dropped-slot count. -/
def endParams {L : Type} (defaultT : BrTargetDrop L) (defBlock : Block) : Nat :=
  defBlock.params + rangeCount defaultT.toDrop

/-- The complete `End(Targets)` handler (function_body.rs lines 459-781):
reconcile the targets against the default's convention, queue any
synthesized adaptor operators (with the `End`'s own source offset),
serialize the merged convention, propagate it to unvisited targets,
account the callers and emit the multi-target branch. -/
def endStep {L : Type} [DecidableEq L] [MakeInternalLabel L]
    (st : DriverSt L) (offset : Nat) (targets0 : List (BrTargetDrop L))
    (defaultT : BrTargetDrop L) : Except Err (DriverSt L) :=
  match st.blocks.find defaultT.target with
  | none => .error (.panik "default target not in block table")
  | some defBlock =>
      let params := endParams defaultT defBlock
      let acc0 : EndAcc L := endAcc0 st defaultT defBlock
      match endReconcile params acc0 targets0 with
      | .error e => .error e
      | .ok (acc, targets) =>
          let (additional, additionalOffset) :=
            if acc.adaptors.isEmpty then (st.additional, st.additionalOffset)
            else (acc.adaptors, offset)
          match endSerialize st.vstack params acc with
          | .error e => .error e
          | .ok (cc, _selector, _vstack) =>
              match (targets ++ [defaultT]).foldlM (propagateTarget cc)
                  acc.blocks with
              | .error e => .error e
              | .ok blocks =>
                  let blocks := accountCallers blocks
                    ((targets ++ [defaultT]).map (·.target))
                  match blocks.find defaultT.target with
                  | none => .error (.panik "default target not in block table")
                  | some _ =>
                      .ok { st with
                            blocks := blocks
                            additional := additional
                            additionalOffset := additionalOffset
                            internalId := acc.internalId
                            nextLabel := acc.nextLabel
                            asmOffset := st.asmOffset + 1
                            vstack := [] }

/-- The `Declare` handler (function_body.rs lines 438-457, also used
inside the skip loop at lines 386-405): allocate a fresh backend label
and insert a fresh `Block` into the table. -/
def declareInsert {L : Type} [DecidableEq L] (st : DriverSt L) (label : L)
    (params : Params) (hasBackwardsCallers : Bool) (numCallers : NumCallers) :
    DriverSt L :=
  { st with
    nextLabel := st.nextLabel + 1
    blocks := st.blocks.insert (.label label)
      { label := .label st.nextLabel
        callingConvention := none
        params := params.length
        isNext := false
        alreadyEmitted := false
        numCallers := numCallers
        actualNumCallers := .zero
        hasBackwardsCallers := hasBackwardsCallers } }

/-- One driver input item: an operator with its source offset, or an
error produced by the converter. -/
abbrev BodyItem (L : Type) := Except Err (WithLoc (Operator L))

/-- The unreachable-skip loop of the `Start` handler (function_body.rs
lines 362-409): consume operators up to and including the next `End` or
`Unreachable` (or the end of the stream), inserting every `Declare`
encountered into the table; a nested `Start` is an error, and converter
errors propagate. -/
def skipBody {L : Type} [DecidableEq L] :
    DriverSt L → List (BodyItem L) →
    Except Err (DriverSt L × List (BodyItem L))
  | st, [] => .ok (st, [])
  | st, x :: rest =>
      match x with
      | .error e => .error e
      | .ok wl =>
          match wl.op with
          | .endOp _ => .ok (st, rest)
          | .unreachable => .ok (st, rest)
          | .start _ =>
              .error (errS "New block started without previous block ending")
          | .declare l p hbc nc => skipBody (declareInsert st l p hbc nc) rest
          | _ => skipBody st rest

/-- The `Start(label)` handler (function_body.rs lines 337-437): clear
`is_next`; an unreachable block (zero actual callers) with a recorded
convention is an error, without one its body is skipped; otherwise the
label is defined, the recorded convention restored, the block marked
emitted and, without backward callers, removed from the table. -/
def startStep {L : Type} [DecidableEq L] (st : DriverSt L) (label : L)
    (body : List (BodyItem L)) :
    Except Err (DriverSt L × List (BodyItem L)) :=
  match st.blocks.find (.label label) with
  | none => .error (errS "Label defined before being declared")
  | some block0 =>
      let block := { block0 with isNext := false }
      let st := { st with blocks := st.blocks.insert (.label label) block }
      if block.actualNumCallers.isZero then
        if block.callingConvention.isSome then
          .error (errS "Block marked unreachable but has been jumped to before")
        else
          skipBody st body
      else
        let block := { block with alreadyEmitted := true }
        match block.label with
        | .ret => .error (.panik "label unwrap on the return target")
        | .label _ =>
            match block.callingConvention with
            | none => .error (errS "No calling convention to apply")
            | some cc =>
                let st := { st with
                            blocks := st.blocks.insert (.label label) block
                            vstack := cc.locs }
                let st :=
                  if block.hasBackwardsCallers then st
                  else { st with blocks := st.blocks.remove (.label label) }
                .ok (st, body)

/-- The per-operator dispatch of the `translate` loop (function_body.rs
lines 328-1085).  Straight-line operators make one backend call each,
modelled as one unit of emitted code and the corresponding abstract-stack
effect. -/
def dispatch {L : Type} [DecidableEq L] [MakeInternalLabel L]
    (st : DriverSt L) (op : Operator L) (offset : Nat)
    (body : List (BodyItem L)) :
    Except Err (DriverSt L × List (BodyItem L)) :=
  match op with
  | .unreachable =>
      .ok ({ st with asmOffset := st.asmOffset + 1 }, body)
  | .start l => startStep st l body
  | .declare l p hbc nc => .ok (declareInsert st l p hbc nc, body)
  | .endOp t => (endStep st offset t.targets t.default).map fun st' => (st', body)
  | .const v =>
      .ok ({ st with
             vstack := st.vstack ++ [ValueLocation.imm v]
             asmOffset := st.asmOffset + 1 }, body)
  | .dropOp r =>
      .ok ({ st with
             vstack := dropElements st.vstack r
             asmOffset := st.asmOffset + 1 }, body)
  | .pick d =>
      match st.vstack.get? (st.vstack.length - 1 - d) with
      | some v =>
          .ok ({ st with
                 vstack := st.vstack ++ [v]
                 asmOffset := st.asmOffset + 1 }, body)
      | none => .error (.microwasm "pick out of range")
  | .swap d =>
      match st.vstack.getLast?, st.vstack.get? (st.vstack.length - 1 - d) with
      | some top, some other =>
          let i := st.vstack.length - 1 - d
          .ok ({ st with
                 vstack := ((st.vstack.set i top).dropLast) ++ [other]
                 asmOffset := st.asmOffset + 1 }, body)
      | _, _ => .error (.microwasm "swap out of range")

/-- The head of the `while let` loop (function_body.rs lines 210-219):
pull the next operator from the adaptor queue (with the queue's recorded
source offset) if it is nonempty, otherwise from the converter stream. -/
def nextOp {L : Type} (st : DriverSt L) (body : List (BodyItem L)) :
    Option (BodyItem L × DriverSt L × List (BodyItem L)) :=
  match st.additional with
  | o :: rest =>
      some (.ok ⟨o, st.additionalOffset⟩, { st with additional := rest }, body)
  | [] =>
      match body with
      | [] => none
      | x :: rest => some (x, st, rest)

/-- The fall-through peek (function_body.rs lines 231-241): when the next
converter operator is `Start(label)`, mark that block `is_next`; an
undeclared label is an error.  The peek inspects only the converter
stream, never the adaptor queue. -/
def stepPeek {L : Type} [DecidableEq L] (st : DriverSt L)
    (body : List (BodyItem L)) : Except Err (DriverSt L) :=
  match body with
  | (Except.ok ⟨Operator.start l, _⟩) :: _ =>
      match st.blocks.find (.label l) with
      | none => .error (errS "Label defined before being declared")
      | some b =>
          .ok { st with
                blocks := st.blocks.insert (.label l) { b with isNext := true } }
  | _ => .ok st

/-- Outcome of the driver loop: normal completion, an error return, or
exhaustion of the step budget (an artifact of the embedding, not a
behaviour of the code). -/
inductive TransOut where
  | okDone
  | failed (e : Err)
  | fuelOut
deriving DecidableEq, Repr

/-- Result of running the driver loop: the outcome, the final loop state
(still observable on the error path, where the source drops it) and the
unconsumed converter stream. -/
structure LoopResult (L : Type) where
  out : TransOut
  state : DriverSt L
  remaining : List (BodyItem L)

/-- The `translate` main loop (function_body.rs lines 210-1086): pull the
next operator (adaptor queue first), record the offsets-sink entry, apply
the fall-through peek, push the operator-offset map entry, and dispatch. -/
def loopGo {L : Type} [DecidableEq L] [MakeInternalLabel L] :
    Nat → DriverSt L → List (BodyItem L) → LoopResult L
  | 0, st, body => ⟨.fuelOut, st, body⟩
  | fuel + 1, st, body =>
      match nextOp st body with
      | none => ⟨.okDone, st, body⟩
      | some (x, st, body) =>
          match x with
          | .error e => ⟨.failed e, st, body⟩
          | .ok wl =>
              let st := { st with
                          offsetsSink :=
                            st.offsetsSink ++ [(wl.offset, st.asmOffset)] }
              match stepPeek st body with
              | .error e => ⟨.failed e, st, body⟩
              | .ok st =>
                  let st := { st with
                              opOffsetMap := st.opOffsetMap ++
                                [(st.asmOffset, OpFmt.op wl.op wl.offset)] }
                  match dispatch st wl.op wl.offset body with
                  | .error e => ⟨.failed e, st, body⟩
                  | .ok (st, body) => loopGo fuel st body

/-- A function type from the module context (params and returns of the
function under translation). -/
structure FuncType where
  params : List SignlessType
  returns : List SignlessType
deriving DecidableEq, Repr

/-- The per-session state relevant to `translate`: the session-owned
operator-offset map and the assembler offset. -/
structure Session (L : Type) where
  opOffsetMap : List (Nat × OpFmt L)
  asmOffset : Nat

/-- The `Block` seeded for `BrTarget::Return` (function_body.rs lines
190-205). -/
def returnBlock (returns : List SignlessType) : Block :=
  { label := .ret
    params := returns.length
    callingConvention := some (ccFunctionStart (retLocs returns))
    isNext := false
    alreadyEmitted := true
    hasBackwardsCallers := false
    actualNumCallers := .zero
    numCallers := .many }

/-- Result of `translate`: the outcome, the session as left behind by the
call, plus (for observability) the final loop state — in particular the
local operator-offset map, which the source drops on the error path —
and the unconsumed converter stream. -/
structure TransResult (L : Type) where
  out : TransOut
  session : Session L
  state : DriverSt L
  remaining : List (BodyItem L)

/-- The `translate` entry point (function_body.rs lines 104-1094): take
the operator-offset map out of the session (`mem::replace`, line 142),
push the `start .Fn{idx}:` prologue entry, reject result arities above
one, seed the `Return` block, run the loop, and store the accumulated
map back into the session only on the successful path (line 1091). -/
def translate {L : Type} [DecidableEq L] [MakeInternalLabel L] (fuel : Nat)
    (session : Session L) (funcIdx : Nat) (funcType : FuncType)
    (body : List (BodyItem L)) : TransResult L :=
  let localMap := session.opOffsetMap ++ [(session.asmOffset, OpFmt.fnStart funcIdx)]
  let st0 : DriverSt L :=
    { blocks := Blocks.empty
      additional := []
      additionalOffset := 0
      internalId := MakeInternalLabel.firstId L
      nextLabel := 0
      opOffsetMap := localMap
      asmOffset := session.asmOffset
      vstack := []
      offsetsSink := [] }
  if 1 < funcType.returns.length then
    { out := .failed (.input "invalid result arity")
      session := { session with opOffsetMap := [] }
      state := st0
      remaining := body }
  else
    let st1 := { st0 with
                 asmOffset := st0.asmOffset + 1
                 vstack := (List.range funcType.params.length).map
                   ValueLocation.reg
                 blocks := Blocks.empty.insert BrTarget.ret
                   (returnBlock funcType.returns) }
    let r := loopGo fuel st1 body
    match r.out with
    | .okDone =>
        let stFinal := { r.state with asmOffset := r.state.asmOffset + 1 }
        { out := .okDone
          session := { opOffsetMap := stFinal.opOffsetMap
                       asmOffset := stFinal.asmOffset }
          state := stFinal
          remaining := r.remaining }
    | o =>
        { out := o
          session := { session with opOffsetMap := [] }
          state := r.state
          remaining := r.remaining }

/-! Basic lemmas about the block table. -/

theorem Blocks.find_insert {L : Type} [DecidableEq L] (bs : Blocks L)
    (k : BrTarget L) (v : Block) (t : BrTarget L) :
    (bs.insert k v).find t = if t = k then some v else bs.find t := rfl

theorem Blocks.find_insert_self {L : Type} [DecidableEq L] (bs : Blocks L)
    (k : BrTarget L) (v : Block) : (bs.insert k v).find k = some v := by
  simp [Blocks.find_insert]

theorem Blocks.find_insert_ne {L : Type} [DecidableEq L] (bs : Blocks L)
    (k : BrTarget L) (v : Block) (t : BrTarget L) (h : t ≠ k) :
    (bs.insert k v).find t = bs.find t := by
  simp [Blocks.find_insert, h]

theorem Blocks.find_remove_ne {L : Type} [DecidableEq L] (bs : Blocks L)
    (k : BrTarget L) (t : BrTarget L) (h : t ≠ k) :
    (bs.remove k).find t = bs.find t := by
  simp [Blocks.find, Blocks.remove, h]

/-! Claim theorems: result arity, `to_drop`, out-of-range locals and the
fate of the operator-offset map on errors. -/

/-- C2.  A function signature with more than one return value is rejected
with the `invalid result arity` input error before any operator of the
body is processed: the converter stream is untouched and no machine code
has been emitted (the assembler offset still equals the session's). -/
theorem claim_C2 {L : Type} [DecidableEq L] [MakeInternalLabel L]
    (fuel : Nat) (session : Session L) (funcIdx : Nat) (funcType : FuncType)
    (body : List (BodyItem L)) (h : 1 < funcType.returns.length) :
    (translate fuel session funcIdx funcType body).out =
        .failed (Err.input "invalid result arity") ∧
    (translate fuel session funcIdx funcType body).remaining = body ∧
    (translate fuel session funcIdx funcType body).state.asmOffset =
        session.asmOffset := by
  simp only [translate, if_pos h]
  exact ⟨trivial, trivial, trivial⟩

/-- C2 witness: a concrete two-result function is rejected. -/
theorem claim_C2_witness :
    1 < ([I32, I32] : List SignlessType).length ∧
    (translate (L := WasmLabel) 9 ⟨[], 0⟩ 0 ⟨[], [I32, I32]⟩ []).out =
        .failed (Err.input "invalid result arity") :=
  ⟨by decide, (claim_C2 9 ⟨[], 0⟩ 0 ⟨[], [I32, I32]⟩ [] (by decide)).1⟩

/-- C3.  The `to_drop!` computation: `first = |returns|`; `last` is
`len − 1` for the function frame and `len − 1 − arguments` otherwise;
the result is the inclusive range `first..=last` when `first ≤ last`, and
`none` otherwise — in particular `none` whenever either subtraction would
underflow. -/
theorem claim_C3 (block : ControlFrame) (len : Nat) :
    toDrop block len =
      if block.kind = ControlFrameKind.functionFrame then
        if 1 ≤ len ∧ block.returns.length ≤ len - 1 then
          some (block.returns.length, len - 1)
        else none
      else
        if 1 + block.arguments ≤ len ∧
            block.returns.length ≤ len - 1 - block.arguments then
          some (block.returns.length, len - 1 - block.arguments)
        else none := by
  unfold toDrop
  cases len with
  | zero => simp [checkedSub]
  | succ n =>
      by_cases hk : block.kind = ControlFrameKind.functionFrame <;>
        simp only [hk, reduceIte]
      · have h1 : checkedSub (n + 1) 1 = some n := by simp [checkedSub]
        rw [h1]
        simp only [Nat.add_sub_cancel]
        split_ifs with h2 h3 <;> simp_all
      · have h1 : checkedSub (n + 1) 1 = some n := by simp [checkedSub]
        rw [h1]
        simp only [Option.some_bind]
        by_cases ha : block.arguments ≤ n
        · have h2 : checkedSub n block.arguments = some (n - block.arguments) := by
            simp [checkedSub, ha]
          rw [h2]
          have h3 : n + 1 - 1 - block.arguments = n - block.arguments := by omega
          rw [h3]
          split_ifs with h4 <;> simp_all; omega
        · have h2 : checkedSub n block.arguments = none := by
            simp [checkedSub]; omega
          rw [h2]
          have h4 : ¬ (1 + block.arguments ≤ n + 1 ∧
              block.returns.length ≤ n + 1 - 1 - block.arguments) := by
            intro hcc
            omega
          rw [if_neg h4]

/-- C4.  With an empty type stack, a `local.get 0` / `local.set 0` /
`local.tee 0` makes `op_sig` read `self.stack[0]`, which panics with a
`Vec` index out of bounds instead of returning the `Local out of range`
Microwasm error: the code aborts where the spec promises a hard error. -/
theorem claim_C4_panics :
    (convStep ⟨false, none, [], [], 1,
        [⟨0, 0, [], ControlFrameKind.functionFrame⟩], false⟩
        (WasmOperator.localGet 0) = .error (.panik "index out of bounds")) ∧
    (convStep ⟨false, none, [], [], 1,
        [⟨0, 0, [], ControlFrameKind.functionFrame⟩], false⟩
        (WasmOperator.localSet 0) = .error (.panik "index out of bounds")) ∧
    (convStep ⟨false, none, [], [], 1,
        [⟨0, 0, [], ControlFrameKind.functionFrame⟩], false⟩
        (WasmOperator.localTee 0) = .error (.panik "index out of bounds")) :=
  ⟨rfl, rfl, rfl⟩

/-- C1 (amended).  Whenever `translate` returns an error, the session's
operator-offset map is left empty: the entries accumulated in the local
map before the failure — including the prologue entry — are discarded,
because only the successful exit path stores the local map back into the
session. -/
theorem claim_C1_amended {L : Type} [DecidableEq L] [MakeInternalLabel L]
    (fuel : Nat) (session : Session L) (funcIdx : Nat) (funcType : FuncType)
    (body : List (BodyItem L)) (e : Err)
    (h : (translate fuel session funcIdx funcType body).out = .failed e) :
    (translate fuel session funcIdx funcType body).session.opOffsetMap = [] := by
  by_cases hc : 1 < funcType.returns.length
  · simp only [translate, if_pos hc]
  · simp only [translate, if_neg hc] at h ⊢
    revert h
    split <;> intro h
    · simp at h
    · rfl

/-- C1 counterexample: an error in the middle of a body (an undeclared
`Start`) loses the entries already pushed (the `start .Fn0:` prologue
entry and the faulty operator's own entry remain observable in the local
map, but the session map comes back empty, refuting the claim that they
are preserved in the session). -/
theorem claim_C1_counterexample :
    (translate (L := WasmLabel) 9 ⟨[], 0⟩ 0 ⟨[], [I32]⟩
        [Except.ok ⟨Operator.start (0, NameTag.header), 5⟩]).out =
      .failed (errS "Label defined before being declared") ∧
    (0, OpFmt.fnStart 0) ∈
      (translate (L := WasmLabel) 9 ⟨[], 0⟩ 0 ⟨[], [I32]⟩
        [Except.ok ⟨Operator.start (0, NameTag.header), 5⟩]).state.opOffsetMap ∧
    (0, OpFmt.fnStart 0) ∉
      (translate (L := WasmLabel) 9 ⟨[], 0⟩ 0 ⟨[], [I32]⟩
        [Except.ok ⟨Operator.start (0, NameTag.header), 5⟩]).session.opOffsetMap := by
  refine ⟨rfl, ?_, ?_⟩ <;> decide

/-- C1 witness for the amended claim, at the same failing input. -/
theorem claim_C1_witness :
    (translate (L := WasmLabel) 9 ⟨[], 0⟩ 0 ⟨[], [I32]⟩
        [Except.ok ⟨Operator.start (0, NameTag.header), 5⟩]).out =
      .failed (errS "Label defined before being declared") ∧
    (translate (L := WasmLabel) 9 ⟨[], 0⟩ 0 ⟨[], [I32]⟩
        [Except.ok ⟨Operator.start (0, NameTag.header), 5⟩]).session.opOffsetMap
      = [] :=
  ⟨rfl, claim_C1_amended 9 ⟨[], 0⟩ 0 ⟨[], [I32]⟩
    [Except.ok ⟨Operator.start (0, NameTag.header), 5⟩]
    (errS "Label defined before being declared") rfl⟩

/-! Lemmas about the caller-accounting fold. -/

theorem incCaller_find_ne {L : Type} [DecidableEq L] (bs : Blocks L)
    (k t : BrTarget L) (h : t ≠ k) : (incCaller bs k).find t = bs.find t := by
  unfold incCaller
  cases bs.find k <;> simp [Blocks.find_insert_ne _ _ _ _ h]

theorem incCaller_find_self {L : Type} [DecidableEq L] (bs : Blocks L)
    (k : BrTarget L) :
    (incCaller bs k).find k = (bs.find k).map
      (fun b => { b with actualNumCallers := b.actualNumCallers.incremented }) := by
  unfold incCaller
  cases h : bs.find k <;> simp [h, Blocks.find_insert_self]

theorem foldl_incCaller_nodup {L : Type} [DecidableEq L]
    (l : List (BrTarget L)) :
    ∀ (bs : Blocks L) (t : BrTarget L), l.Nodup →
      (l.foldl incCaller bs).find t =
        if t ∈ l then (bs.find t).map
          (fun b => { b with actualNumCallers := b.actualNumCallers.incremented })
        else bs.find t := by
  induction l with
  | nil => intro bs t _; simp
  | cons k l ih =>
      intro bs t hl
      rw [List.foldl_cons, ih (incCaller bs k) t (List.nodup_cons.mp hl).2]
      by_cases ht : t = k
      · subst ht
        have htl : t ∉ l := (List.nodup_cons.mp hl).1
        simp [htl, incCaller_find_self]
      · simp [List.mem_cons, ht, incCaller_find_ne bs k t ht]

/-- C8.  The caller-accounting phase of `End` processing
(`accountCallers`, applied by `endStep` to the unique targets): the
increment is the saturating successor `Zero→One`, `One→Many`,
`Many→Many`; every target in the list has its `actual_num_callers`
incremented exactly once, however many times it occurs, and every other
label is untouched; and a successful `endStep` leaves exactly the table
obtained by accounting the reconciled extra targets together with the
default on top of the propagated table. -/
theorem claim_C8 {L : Type} [DecidableEq L] [MakeInternalLabel L] :
    (NumCallers.zero.incremented = NumCallers.one ∧
     NumCallers.one.incremented = NumCallers.many ∧
     NumCallers.many.incremented = NumCallers.many) ∧
    (∀ (bs : Blocks L) (ts : List (BrTarget L)) (t : BrTarget L),
      (accountCallers bs ts).find t =
        if t ∈ ts then (bs.find t).map
          (fun b => { b with actualNumCallers := b.actualNumCallers.incremented })
        else bs.find t) ∧
    (∀ (st : DriverSt L) (offset : Nat) (ts : List (BrTargetDrop L))
       (d : BrTargetDrop L) (st' : DriverSt L) (defBlock : Block)
       (acc : EndAcc L) (targets : List (BrTargetDrop L)) (cc : CC)
       (sel : ValueLocation) (vs : List ValueLocation) (bs : Blocks L),
      st.blocks.find d.target = some defBlock →
      endReconcile (endParams d defBlock) (endAcc0 st d defBlock) ts =
        .ok (acc, targets) →
      endSerialize st.vstack (endParams d defBlock) acc = .ok (cc, sel, vs) →
      (targets ++ [d]).foldlM (propagateTarget cc) acc.blocks = .ok bs →
      endStep st offset ts d = .ok st' →
      st'.blocks = accountCallers bs ((targets ++ [d]).map (·.target))) := by
  refine ⟨⟨rfl, rfl, rfl⟩, ?_, ?_⟩
  · intro bs ts t
    unfold accountCallers
    rw [foldl_incCaller_nodup ts.dedup bs t ts.nodup_dedup]
    simp [List.mem_dedup]
  · intro st offset ts d st' defBlock acc targets cc sel vs bs
      hfind hrec hser hprop hstep
    unfold endStep at hstep
    rw [hfind] at hstep
    simp only [hrec, hser, hprop] at hstep
    revert hstep
    split
    · intro hstep; cases hstep
    · intro hstep
      cases hstep
      rfl

/-- C9.  During `End` reconciliation, an already-emitted target whose
recorded depth differs from the candidate's is the hard `rsp`-conflict
error — `processTarget` fails outright, so no adaptor block is
registered or enqueued — whereas a not-yet-emitted target with a
conflicting recorded depth has that depth cleared instead of erroring. -/
theorem claim_C9 {L : Type} [DecidableEq L] [MakeInternalLabel L] :
    (∀ a b : Nat, a ≠ b →
      reconcileDepth (some a) (some b) true = .error rspConflictErr) ∧
    (∀ (params : Nat) (acc : EndAcc L) (t : BrTargetDrop L) (block : Block)
       (blockCC cc : CC) (toDrop : Option DepthRange) (a b : Nat),
      acc.blocks.find t.target = some block →
      block.callingConvention = some blockCC →
      acc.ccAndToDrop = some (cc, toDrop) →
      block.alreadyEmitted = true →
      blockCC.depth = some b → cc.depth = some a → a ≠ b →
      processTarget params acc t = .error rspConflictErr) ∧
    (∀ (ccDepth : Option Nat) (b : Nat), ccDepth ≠ some b →
      reconcileDepth ccDepth (some b) false = .ok none) := by
  refine ⟨?_, ?_, ?_⟩
  · intro a b hne
    simp [reconcileDepth, hne]
  · intro params acc t block blockCC cc toDrop a b hfind hcc hccand hemit hbd
      hcd hne
    have hr : reconcileDepth cc.depth blockCC.depth block.alreadyEmitted =
        .error rspConflictErr := by
      rw [hcd, hbd, hemit]
      simp [reconcileDepth, hne]
    simp only [processTarget, hfind, hcc, hccand, hr]
  · intro ccDepth b hne
    cases ccDepth with
    | none => simp [reconcileDepth]
    | some a =>
        have : a ≠ b := by intro hab; exact hne (by rw [hab])
        simp [reconcileDepth, this]

/-! Concrete scenarios used by the witnesses. -/

/-- A driver state holding only the seeded `Return` block, with two
values on the abstract stack (the single result and the selector). -/
def wC8_st : DriverSt WasmLabel :=
  { blocks := Blocks.empty.insert BrTarget.ret (returnBlock [I32])
    additional := []
    additionalOffset := 0
    internalId := 0
    nextLabel := 0
    opOffsetMap := []
    asmOffset := 0
    vstack := [ValueLocation.reg 0, ValueLocation.reg 1]
    offsetsSink := [] }

/-- An `End` whose only target is the function return. -/
def wC8_d : BrTargetDrop WasmLabel := ⟨BrTarget.ret, none⟩

/-- The convention `endSerialize` produces in the `wC8` scenario. -/
def wC8_cc : CC := ⟨[ValueLocation.reg 0], 2, some 0⟩

/-- The driver state a successful `endStep` leaves in the `wC8`
scenario. -/
def wC8_res : DriverSt WasmLabel :=
  match endStep wC8_st 0 [] wC8_d with
  | .ok s => s
  | .error _ => wC8_st

/-- C8 witness: accounting a concrete `End` to the function return. -/
theorem claim_C8_witness :
    wC8_st.blocks.find wC8_d.target = some (returnBlock [I32]) ∧
    endReconcile (endParams wC8_d (returnBlock [I32]))
        (endAcc0 wC8_st wC8_d (returnBlock [I32])) [] =
      .ok (endAcc0 wC8_st wC8_d (returnBlock [I32]), []) ∧
    endStep wC8_st 0 [] wC8_d = .ok wC8_res ∧
    wC8_res.blocks = accountCallers wC8_st.blocks [BrTarget.ret] :=
  ⟨rfl, rfl, rfl,
    (claim_C8 (L := WasmLabel)).2.2 wC8_st 0 [] wC8_d wC8_res (returnBlock [I32])
      (endAcc0 wC8_st wC8_d (returnBlock [I32])) [] wC8_cc (ValueLocation.reg 1)
      [ValueLocation.reg 0, ValueLocation.reg 1] wC8_st.blocks
      rfl rfl rfl rfl rfl⟩

/-- A block with a recorded convention requiring stack depth 9, already
emitted. -/
def wC9_block : Block :=
  ⟨BrTarget.label 11, some ⟨[ValueLocation.reg 0], 1, some 9⟩, 1,
   false, true, .many, .one, false⟩

/-- An accumulator whose candidate convention requires stack depth 8. -/
def wC9_acc : EndAcc WasmLabel :=
  { blocks := Blocks.empty.insert (BrTarget.label (1, NameTag.endTag)) wC9_block
    ccAndToDrop := some (⟨[ValueLocation.reg 0], 1, some 8⟩, none)
    maxNumCallers := .many
    adaptors := []
    internalId := 0
    nextLabel := 12 }

/-- C9 witness: two already-emitted targets demanding depths 8 and 9
produce the hard `rsp` error. -/
theorem claim_C9_witness :
    wC9_acc.blocks.find (BrTarget.label (1, NameTag.endTag)) = some wC9_block ∧
    wC9_block.alreadyEmitted = true ∧
    processTarget 1 wC9_acc ⟨BrTarget.label (1, NameTag.endTag), none⟩ =
      .error rspConflictErr :=
  ⟨rfl, rfl,
    (claim_C9 (L := WasmLabel)).2.1 1 wC9_acc
      ⟨BrTarget.label (1, NameTag.endTag), none⟩ wC9_block
      ⟨[ValueLocation.reg 0], 1, some 9⟩ ⟨[ValueLocation.reg 0], 1, some 8⟩
      none 8 9 rfl rfl rfl rfl rfl rfl (by decide)⟩


/-! Lemmas about `apply_op` and the converter step. -/

theorem except_bind_ok {α β ε : Type} (a : α) (f : α → Except ε β) :
    (Except.ok a >>= f) = f a := rfl
theorem except_bind_err {α β ε : Type} (e : ε) (f : α → Except ε β) :
    ((Except.error e : Except ε α) >>= f) = .error e := rfl

theorem applyOpPop_ok (st : List SignlessType × Option SignlessType) (p : SigT)
    (r : List SignlessType × Option SignlessType) (h : applyOpPop st p = .ok r) :
    r.1 = st.1.dropLast ∧ st.1 ≠ [] := by
  unfold applyOpPop at h
  split at h
  · cases h
  · rename_i stackTy hl
    have hne : st.1 ≠ [] := by intro he; rw [he] at hl; cases hl
    split at h
    · split at h
      · split at h
        · cases h; exact ⟨rfl, hne⟩
        · cases h
      · split at h
        · cases h; exact ⟨rfl, hne⟩
        · cases h
    · split at h
      · cases h; exact ⟨rfl, hne⟩
      · cases h

theorem foldlM_applyOpPop_length (l : List SigT) :
    ∀ (st r : List SignlessType × Option SignlessType),
      l.foldlM applyOpPop st = .ok r → r.1.length + l.length = st.1.length := by
  induction l with
  | nil =>
      intro st r h
      simp only [List.foldlM_nil] at h
      cases h
      simp
  | cons p l ih =>
      intro st r h
      rw [List.foldlM_cons] at h
      cases hp : applyOpPop st p with
      | error e => rw [hp, except_bind_err] at h; cases h
      | ok st1 =>
          rw [hp, except_bind_ok] at h
          have h1 := ih st1 r h
          obtain ⟨hd, hne⟩ := applyOpPop_ok st p st1 hp
          have hne2 : st.1.length ≠ 0 := by
            intro he
            exact hne (List.length_eq_zero.mp he)
          have : st1.1.length + 1 = st.1.length := by
            rw [hd, List.length_dropLast]
            omega
          simp only [List.length_cons]
          omega

theorem applyOpPush_length (tp : Option SignlessType) (st : List SignlessType)
    (p : SigT) (r : List SignlessType) (h : applyOpPush tp st p = .ok r) :
    r.length = st.length + 1 := by
  unfold applyOpPush at h
  rcases p with _ | t
  · rcases tp with _ | t0
    · cases h
    · cases h; simp
  · cases h; simp

theorem foldlM_applyOpPush_length (tp : Option SignlessType) (l : List SigT) :
    ∀ (st r : List SignlessType),
      l.foldlM (applyOpPush tp) st = .ok r → r.length = st.length + l.length := by
  induction l with
  | nil =>
      intro st r h
      simp only [List.foldlM_nil] at h
      cases h
      simp
  | cons p l ih =>
      intro st r h
      rw [List.foldlM_cons] at h
      cases hp : applyOpPush tp st p with
      | error e => rw [hp, except_bind_err] at h; cases h
      | ok st1 =>
          rw [hp, except_bind_ok] at h
          have h1 := ih st1 r h
          have h2 := applyOpPush_length tp st p st1 hp
          simp only [List.length_cons]
          omega

theorem applyOp_length (stack : List SignlessType) (sig : OpSig)
    (res : List SignlessType) (h : applyOp stack sig = .ok res) :
    res.length + sig.input.length = stack.length + sig.output.length := by
  unfold applyOp at h
  cases h1 : sig.input.reverse.foldlM applyOpPop (stack, none) with
  | error e => rw [h1, except_bind_err] at h; cases h
  | ok mid =>
      rw [h1, except_bind_ok] at h
      obtain ⟨ms, mt⟩ := mid
      have e1 := foldlM_applyOpPop_length sig.input.reverse (stack, none) (ms, mt) h1
      have e2 := foldlM_applyOpPush_length mt sig.output.reverse ms res h
      simp only [List.length_reverse] at e1 e2
      omega



theorem mapError_ok {α ε ε' : Type} (f : ε → ε') (x : Except ε α) (a : α)
    (h : x.mapError f = .ok a) : x = .ok a := by
  cases x with
  | ok b => cases h; rfl
  | error e => cases h

/-- C5.  Lowering `loop ty` with fresh id `i` emits exactly
`Declare{(i,Header), has_backwards_callers=true, num_callers=Many,
params=the full current stack}`, then the `Declare` of the end label
`(i,End)`, then `Const(i32 0)`, then `End` targeting `(i,Header)`, then
`Start(i,Header)` — and pushes a `Loop` control frame whose `arguments`
records the entry stack depth (the stack length is unchanged by the
loop's signature). -/
theorem claim_C5 (c : MicrowasmConvSt) (ty : TypeOrFuncType)
    (ops : List (Operator WasmLabel)) (c' : MicrowasmConvSt)
    (h : convStep c (.loopOp ty) = .ok (ops, c')) :
    ∃ endDeclParams returns,
      ops = [Operator.declare (c.currentId, NameTag.header) c'.stack true .many,
             Operator.declare (c.currentId, NameTag.endTag) endDeclParams false
               .many,
             Operator.const (.i32 0),
             Operator.endOp ⟨[], ⟨.label (c.currentId, NameTag.header), none⟩⟩,
             Operator.start (c.currentId, NameTag.header)] ∧
      c'.controlFrames.head? =
        some ⟨c.currentId, c'.stack.length, returns, ControlFrameKind.loopFrame⟩ ∧
      c'.stack.length = c.stack.length ∧
      c'.currentId = c.currentId + 1 := by
  unfold convStep at h
  cases hsig : opSig c (.loopOp ty) with
  | error e => rw [hsig, except_bind_err] at h; cases h
  | ok sig =>
      rw [hsig, except_bind_ok] at h
      cases hap : (applyOp c.stack sig).mapError wrapApplyErr with
      | error e => rw [hap, except_bind_err] at h; cases h
      | ok stk =>
          rw [hap, except_bind_ok] at h
          dsimp only [] at h
          cases hts : typeOrFuncTypeToSig
              { c with stack := stk, currentId := c.currentId + 1 } ty with
          | error e => rw [hts, except_bind_err] at h; cases h
          | ok pr =>
              obtain ⟨ins, rets⟩ := pr
              rw [hts, except_bind_ok] at h
              dsimp only [] at h
              cases hbp : blockParamsWithWasmType
                  { c with
                    stack := stk
                    currentId := c.currentId + 1
                    controlFrames :=
                      ⟨c.currentId, stk.length, rets,
                        ControlFrameKind.loopFrame⟩ :: c.controlFrames } ty with
              | error e => rw [hbp, except_bind_err] at h; cases h
              | ok bptw =>
                  rw [hbp, except_bind_ok] at h
                  cases h
                  have hlen : stk.length = c.stack.length := by
                    have hap2 := mapError_ok _ _ _ hap
                    unfold opSig at hsig
                    dsimp only [] at hsig
                    cases hts0 : typeOrFuncTypeToSig c ty with
                    | error e => rw [hts0, except_bind_err] at hsig; cases hsig
                    | ok pr0 =>
                        rw [hts0, except_bind_ok] at hsig
                        obtain ⟨ins0, rets0⟩ := pr0
                        cases hsig
                        have := applyOp_length c.stack _ _ hap2
                        simp only [List.length_map] at this
                        omega
                  exact ⟨bptw, rets, rfl, rfl, hlen, rfl⟩

/-- A converter state with one `i32` local, inside the function frame. -/
def wC5_c : MicrowasmConvSt :=
  ⟨false, none, [I32], [], 1,
   [⟨0, 1, [I32], ControlFrameKind.functionFrame⟩], false⟩

/-- The operators and state a successful `convStep` yields on `loop` in
the `wC5` scenario. -/
def wC5_res : List (Operator WasmLabel) × MicrowasmConvSt :=
  match convStep wC5_c (.loopOp (.blockType none)) with
  | .ok r => r
  | .error _ => ([], wC5_c)

/-- C5 witness: lowering a concrete `loop` (empty block type) emits the
claimed five-operator sequence. -/
theorem claim_C5_witness :
    convStep wC5_c (.loopOp (.blockType none)) = .ok (wC5_res.1, wC5_res.2) ∧
    (∃ endDeclParams returns,
      wC5_res.1 =
        [Operator.declare (wC5_c.currentId, NameTag.header) wC5_res.2.stack
           true .many,
         Operator.declare (wC5_c.currentId, NameTag.endTag) endDeclParams false
           .many,
         Operator.const (.i32 0),
         Operator.endOp ⟨[], ⟨.label (wC5_c.currentId, NameTag.header), none⟩⟩,
         Operator.start (wC5_c.currentId, NameTag.header)] ∧
      wC5_res.2.controlFrames.head? =
        some ⟨wC5_c.currentId, wC5_res.2.stack.length, returns,
          ControlFrameKind.loopFrame⟩ ∧
      wC5_res.2.stack.length = wC5_c.stack.length ∧
      wC5_res.2.currentId = wC5_c.currentId + 1) :=
  ⟨rfl, claim_C5 wC5_c (.blockType none) wC5_res.1 wC5_res.2 rfl⟩

/-- The `Block` registered for a synthesized adaptor (function_body.rs
lines 571-589): fresh backend label, no convention, not emitted, exactly
one caller, no backward callers. -/
def adaptorBlock (asmLabel : Nat) (params : Nat) : Block :=
  ⟨.label asmLabel, none, params, false, false, .one, .zero, false⟩

/-- C7.  When an extra target's recorded convention disagrees in operand
locations with the candidate convention, `processTarget` allocates the
next internal label, registers an adaptor `Block` with
`has_backwards_callers = false` and `num_callers = One`, rewrites the
target to the adaptor and appends exactly `Start(new); Const(i32 0);
End→original target` to the adaptor queue; a successful `End` with a
nonempty adaptor list installs it as the pending instructions stamped
with the `End`'s own source offset; and the loop head consumes pending
instructions (with that stamped offset) before the next converter
operator. -/
theorem claim_C7 {L : Type} [DecidableEq L] [MakeInternalLabel L] :
    (∀ (params : Nat) (acc : EndAcc L) (t : BrTargetDrop L) (block : Block)
       (blockCC cc : CC) (toDrop : Option DepthRange) (newDepth : Option Nat)
       (blockLocs curLocs : List (Option ValueLocation)),
      acc.blocks.find t.target = some block →
      block.callingConvention = some blockCC →
      acc.ccAndToDrop = some (cc, toDrop) →
      reconcileDepth cc.depth blockCC.depth block.alreadyEmitted = .ok newDepth →
      ccToParamLocs params { blockCC with depth := newDepth } t.toDrop =
        some blockLocs →
      ccToParamLocs params cc toDrop = some curLocs →
      locsAgree blockLocs curLocs = false →
      processTarget params acc t = .ok
        ({ blocks := (acc.blocks.insert t.target
              { block with
                callingConvention := some { blockCC with depth := newDepth } }).insert
              (.label (MakeInternalLabel.newInternal (L := L) acc.internalId).1)
              (adaptorBlock acc.nextLabel (block.params + rangeCount t.toDrop))
           ccAndToDrop := some (cc, toDrop)
           maxNumCallers := acc.maxNumCallers.maxC
             (tmpNumCallers
               (adaptorBlock acc.nextLabel (block.params + rangeCount t.toDrop)))
           adaptors := acc.adaptors ++
             [Operator.start (MakeInternalLabel.newInternal (L := L)
                acc.internalId).1,
              Operator.const (.i32 0),
              Operator.endOp ⟨[], ⟨t.target, none⟩⟩]
           internalId := (MakeInternalLabel.newInternal (L := L) acc.internalId).2
           nextLabel := acc.nextLabel + 1 },
         { t with
           target := .label (MakeInternalLabel.newInternal (L := L)
             acc.internalId).1 })) ∧
    (∀ (st : DriverSt L) (offset : Nat) (ts : List (BrTargetDrop L))
       (d : BrTargetDrop L) (st' : DriverSt L) (defBlock : Block)
       (acc : EndAcc L) (targets : List (BrTargetDrop L)),
      st.blocks.find d.target = some defBlock →
      endReconcile (endParams d defBlock) (endAcc0 st d defBlock) ts =
        .ok (acc, targets) →
      endStep st offset ts d = .ok st' →
      acc.adaptors ≠ [] →
      st'.additional = acc.adaptors ∧ st'.additionalOffset = offset) ∧
    (∀ (st : DriverSt L) (body : List (BodyItem L)) (o : Operator L)
       (rest : List (Operator L)),
      st.additional = o :: rest →
      nextOp st body =
        some (.ok ⟨o, st.additionalOffset⟩, { st with additional := rest },
          body)) := by
  refine ⟨?_, ?_, ?_⟩
  · intro params acc t block blockCC cc toDrop newDepth blockLocs curLocs
      hfind hcc hccand hrd hbl hcl hdis
    unfold processTarget
    rw [hfind]
    dsimp only []
    rw [hcc, hccand]
    dsimp only []
    rw [hrd]
    dsimp only []
    rw [hbl, hcl]
    dsimp only []
    rw [hdis]
    simp only [Bool.false_eq_true, if_false, reduceIte]
    rw [Blocks.find_insert_self]
    rfl
  · intro st offset ts d st' defBlock acc targets hfind hrec hstep hne
    unfold endStep at hstep
    rw [hfind] at hstep
    dsimp only [] at hstep
    rw [hrec] at hstep
    dsimp only [] at hstep
    cases had : acc.adaptors with
    | nil => exact absurd had hne
    | cons a as =>
        rw [had] at hstep
        dsimp only [List.isEmpty] at hstep
        revert hstep
        split
        · intro hstep; cases hstep
        · split
          · intro hstep; cases hstep
          · split
            · intro hstep; cases hstep
            · intro hstep
              cases hstep
              exact ⟨rfl, rfl⟩
  · intro st body o rest h
    unfold nextOp
    rw [h]


/-- A block whose recorded convention keeps its operand in register 1. -/
def wC7_block : Block :=
  ⟨BrTarget.label 11, some ⟨[ValueLocation.reg 1], 1, none⟩, 1, false, false,
   .many, .zero, false⟩

/-- An accumulator whose candidate convention keeps the operand in
register 0, disagreeing with `wC7_block`. -/
def wC7_acc : EndAcc WasmLabel :=
  { blocks := Blocks.empty.insert (BrTarget.label (1, NameTag.endTag)) wC7_block
    ccAndToDrop := some (⟨[ValueLocation.reg 0], 1, none⟩, none)
    maxNumCallers := .many
    adaptors := []
    internalId := 0
    nextLabel := 12 }

/-- The disagreeing target of the `wC7` scenario. -/
def wC7_t : BrTargetDrop WasmLabel := ⟨BrTarget.label (1, NameTag.endTag), none⟩

/-- C7 witness: a concrete register disagreement synthesizes the adaptor
with the three enqueued operators. -/
theorem claim_C7_witness :
    wC7_acc.blocks.find wC7_t.target = some wC7_block ∧
    locsAgree [some (ValueLocation.reg 1), none]
      [some (ValueLocation.reg 0), none] = false ∧
    processTarget 1 wC7_acc wC7_t = .ok
      ({ blocks := (wC7_acc.blocks.insert wC7_t.target
            { wC7_block with
              callingConvention := some ⟨[ValueLocation.reg 1], 1, none⟩ }).insert
            (BrTarget.label (0, NameTag.internal)) (adaptorBlock 12 1)
         ccAndToDrop := some (⟨[ValueLocation.reg 0], 1, none⟩, none)
         maxNumCallers := NumCallers.many.maxC (tmpNumCallers (adaptorBlock 12 1))
         adaptors := [Operator.start (0, NameTag.internal),
                      Operator.const (.i32 0),
                      Operator.endOp ⟨[], ⟨wC7_t.target, none⟩⟩]
         internalId := 1
         nextLabel := 13 },
       ⟨BrTarget.label (0, NameTag.internal), none⟩) :=
  ⟨rfl, rfl, (claim_C7 (L := WasmLabel)).1 1 wC7_acc wC7_t wC7_block
    ⟨[ValueLocation.reg 1], 1, none⟩ ⟨[ValueLocation.reg 0], 1, none⟩ none none
    [some (ValueLocation.reg 1), none] [some (ValueLocation.reg 0), none]
    rfl rfl rfl rfl rfl rfl rfl⟩

/-- An item the unreachable-skip loop consumes while continuing: an
operator that is neither a stopper (`End`/`Unreachable`) nor a nested
`Start`, and not a converter error. -/
def isSkippable {L : Type} : BodyItem L → Bool
  | .ok wl =>
      match wl.op with
      | .endOp _ => false
      | .unreachable => false
      | .start _ => false
      | _ => true
  | .error _ => false

/-- An item that terminates the unreachable-skip loop: an `End` or an
`Unreachable`. -/
def isStopper {L : Type} : BodyItem L → Bool
  | .ok wl =>
      match wl.op with
      | .endOp _ => true
      | .unreachable => true
      | _ => false
  | .error _ => false

theorem declareInsert_find_isSome {L : Type} [DecidableEq L] (st : DriverSt L)
    (l : L) (p : Params) (hbc : Bool) (nc : NumCallers) (k : BrTarget L)
    (h : (st.blocks.find k).isSome = true) :
    (((declareInsert st l p hbc nc).blocks.find k)).isSome = true := by
  unfold declareInsert
  by_cases hk : k = BrTarget.label l
  · subst hk; simp [Blocks.find_insert_self]
  · simpa [Blocks.find_insert_ne _ _ _ _ hk] using h

theorem declareInsert_find_self {L : Type} [DecidableEq L] (st : DriverSt L)
    (l : L) (p : Params) (hbc : Bool) (nc : NumCallers) :
    (((declareInsert st l p hbc nc).blocks.find (BrTarget.label l))).isSome =
      true := by
  unfold declareInsert
  simp [Blocks.find_insert_self]

theorem skipBody_mono {L : Type} [DecidableEq L] :
    ∀ (body : List (BodyItem L)) (st st' : DriverSt L) (rest : List (BodyItem L))
      (k : BrTarget L),
      skipBody st body = .ok (st', rest) →
      (st.blocks.find k).isSome = true → (st'.blocks.find k).isSome = true := by
  intro body
  induction body with
  | nil =>
      intro st st' rest k h hk
      cases h
      exact hk
  | cons x body ih =>
      intro st st' rest k h hk
      unfold skipBody at h
      cases x with
      | error e => cases h
      | ok wl =>
          dsimp only [] at h
          cases hop : wl.op <;> rw [hop] at h <;> dsimp only [] at h
          · cases h; exact hk
          · rename_i l0 p0 hbc0 nc0
            exact ih (declareInsert st l0 p0 hbc0 nc0) st' rest k h
              (declareInsert_find_isSome st l0 p0 hbc0 nc0 k hk)
          · cases h
          · cases h; exact hk
          · exact ih st st' rest k h hk
          · exact ih st st' rest k h hk
          · exact ih st st' rest k h hk
          · exact ih st st' rest k h hk

theorem skipBody_fields {L : Type} [DecidableEq L] :
    ∀ (body : List (BodyItem L)) (st st' : DriverSt L) (rest : List (BodyItem L)),
      skipBody st body = .ok (st', rest) →
      st'.asmOffset = st.asmOffset ∧ st'.opOffsetMap = st.opOffsetMap := by
  intro body
  induction body with
  | nil =>
      intro st st' rest h
      cases h
      exact ⟨rfl, rfl⟩
  | cons x body ih =>
      intro st st' rest h
      unfold skipBody at h
      cases x with
      | error e => cases h
      | ok wl =>
          dsimp only [] at h
          cases hop : wl.op <;> rw [hop] at h <;> dsimp only [] at h
          · cases h; exact ⟨rfl, rfl⟩
          · rename_i l0 p0 hbc0 nc0
            exact ih (declareInsert st l0 p0 hbc0 nc0) st' rest h
          · cases h
          · cases h; exact ⟨rfl, rfl⟩
          · exact ih st st' rest h
          · exact ih st st' rest h
          · exact ih st st' rest h
          · exact ih st st' rest h

theorem skipBody_spec {L : Type} [DecidableEq L] :
    ∀ (body : List (BodyItem L)) (st st' : DriverSt L) (rest : List (BodyItem L)),
      skipBody st body = .ok (st', rest) →
      ∃ pre, body = pre ++ rest ∧
        ((rest = [] ∧ ∀ x ∈ pre, isSkippable x = true) ∨
         (∃ pre' z, pre = pre' ++ [z] ∧ isStopper z = true ∧
            ∀ x ∈ pre', isSkippable x = true)) ∧
        (∀ (l' : L) (p : Params) (hbc : Bool) (nc : NumCallers) (o : Nat),
          (Except.ok ⟨Operator.declare l' p hbc nc, o⟩ : BodyItem L) ∈ pre →
          (st'.blocks.find (BrTarget.label l')).isSome = true) := by
  intro body
  induction body with
  | nil =>
      intro st st' rest h
      cases h
      exact ⟨[], rfl, Or.inl ⟨rfl, by simp⟩, by simp⟩
  | cons x body ih =>
      intro st st' rest h
      unfold skipBody at h
      cases x with
      | error e => cases h
      | ok wl =>
          obtain ⟨op, o⟩ := wl
          dsimp only [] at h
          cases op with
          | unreachable =>
              cases h
              refine ⟨[Except.ok ⟨Operator.unreachable, o⟩], rfl,
                Or.inr ⟨[], _, rfl, rfl, by simp⟩, ?_⟩
              intro l' p hbc nc o' hm
              simp at hm
          | endOp t =>
              cases h
              refine ⟨[Except.ok ⟨Operator.endOp t, o⟩], rfl,
                Or.inr ⟨[], _, rfl, rfl, by simp⟩, ?_⟩
              intro l' p hbc nc o' hm
              simp at hm
          | start l0 => cases h
          | declare l0 p0 hbc0 nc0 =>
              obtain ⟨pre0, hb, hsplit, hdecl⟩ := ih _ _ _ h
              refine ⟨Except.ok ⟨Operator.declare l0 p0 hbc0 nc0, o⟩ :: pre0,
                by rw [hb]; rfl, ?_, ?_⟩
              · rcases hsplit with ⟨hr, hall⟩ | ⟨pre', z, hpz, hz, hall⟩
                · refine Or.inl ⟨hr, ?_⟩
                  intro x hx
                  rcases List.mem_cons.mp hx with hx | hx
                  · subst hx; rfl
                  · exact hall x hx
                · refine Or.inr
                    ⟨Except.ok ⟨Operator.declare l0 p0 hbc0 nc0, o⟩ :: pre', z,
                     by rw [hpz]; rfl, hz, ?_⟩
                  intro x hx
                  rcases List.mem_cons.mp hx with hx | hx
                  · subst hx; rfl
                  · exact hall x hx
              · intro l' p hbc nc o' hm
                rcases List.mem_cons.mp hm with hm | hm
                · cases hm
                  exact skipBody_mono _ _ _ _ _ h
                    (declareInsert_find_self st l0 p0 hbc0 nc0)
                · exact hdecl l' p hbc nc o' hm
          | const v =>
              obtain ⟨pre0, hb, hsplit, hdecl⟩ := ih _ _ _ h
              refine ⟨Except.ok ⟨Operator.const v, o⟩ :: pre0,
                by rw [hb]; rfl, ?_, ?_⟩
              · rcases hsplit with ⟨hr, hall⟩ | ⟨pre', z, hpz, hz, hall⟩
                · refine Or.inl ⟨hr, ?_⟩
                  intro x hx
                  rcases List.mem_cons.mp hx with hx | hx
                  · subst hx; rfl
                  · exact hall x hx
                · refine Or.inr ⟨Except.ok ⟨Operator.const v, o⟩ :: pre', z,
                    by rw [hpz]; rfl, hz, ?_⟩
                  intro x hx
                  rcases List.mem_cons.mp hx with hx | hx
                  · subst hx; rfl
                  · exact hall x hx
              · intro l' p hbc nc o' hm
                rcases List.mem_cons.mp hm with hm | hm
                · cases hm
                · exact hdecl l' p hbc nc o' hm
          | dropOp r =>
              obtain ⟨pre0, hb, hsplit, hdecl⟩ := ih _ _ _ h
              refine ⟨Except.ok ⟨Operator.dropOp r, o⟩ :: pre0,
                by rw [hb]; rfl, ?_, ?_⟩
              · rcases hsplit with ⟨hr, hall⟩ | ⟨pre', z, hpz, hz, hall⟩
                · refine Or.inl ⟨hr, ?_⟩
                  intro x hx
                  rcases List.mem_cons.mp hx with hx | hx
                  · subst hx; rfl
                  · exact hall x hx
                · refine Or.inr ⟨Except.ok ⟨Operator.dropOp r, o⟩ :: pre', z,
                    by rw [hpz]; rfl, hz, ?_⟩
                  intro x hx
                  rcases List.mem_cons.mp hx with hx | hx
                  · subst hx; rfl
                  · exact hall x hx
              · intro l' p hbc nc o' hm
                rcases List.mem_cons.mp hm with hm | hm
                · cases hm
                · exact hdecl l' p hbc nc o' hm
          | pick d =>
              obtain ⟨pre0, hb, hsplit, hdecl⟩ := ih _ _ _ h
              refine ⟨Except.ok ⟨Operator.pick d, o⟩ :: pre0,
                by rw [hb]; rfl, ?_, ?_⟩
              · rcases hsplit with ⟨hr, hall⟩ | ⟨pre', z, hpz, hz, hall⟩
                · refine Or.inl ⟨hr, ?_⟩
                  intro x hx
                  rcases List.mem_cons.mp hx with hx | hx
                  · subst hx; rfl
                  · exact hall x hx
                · refine Or.inr ⟨Except.ok ⟨Operator.pick d, o⟩ :: pre', z,
                    by rw [hpz]; rfl, hz, ?_⟩
                  intro x hx
                  rcases List.mem_cons.mp hx with hx | hx
                  · subst hx; rfl
                  · exact hall x hx
              · intro l' p hbc nc o' hm
                rcases List.mem_cons.mp hm with hm | hm
                · cases hm
                · exact hdecl l' p hbc nc o' hm
          | swap d =>
              obtain ⟨pre0, hb, hsplit, hdecl⟩ := ih _ _ _ h
              refine ⟨Except.ok ⟨Operator.swap d, o⟩ :: pre0,
                by rw [hb]; rfl, ?_, ?_⟩
              · rcases hsplit with ⟨hr, hall⟩ | ⟨pre', z, hpz, hz, hall⟩
                · refine Or.inl ⟨hr, ?_⟩
                  intro x hx
                  rcases List.mem_cons.mp hx with hx | hx
                  · subst hx; rfl
                  · exact hall x hx
                · refine Or.inr ⟨Except.ok ⟨Operator.swap d, o⟩ :: pre', z,
                    by rw [hpz]; rfl, hz, ?_⟩
                  intro x hx
                  rcases List.mem_cons.mp hx with hx | hx
                  · subst hx; rfl
                  · exact hall x hx
              · intro l' p hbc nc o' hm
                rcases List.mem_cons.mp hm with hm | hm
                · cases hm
                · exact hdecl l' p hbc nc o' hm



theorem skipBody_start_error {L : Type} [DecidableEq L] :
    ∀ (pre : List (BodyItem L)), (∀ x ∈ pre, isSkippable x = true) →
    ∀ (st : DriverSt L) (l : L) (o : Nat) (rest : List (BodyItem L)),
      skipBody st
          (pre ++ (Except.ok ⟨Operator.start l, o⟩ : BodyItem L) :: rest) =
        .error (errS "New block started without previous block ending") := by
  intro pre
  induction pre with
  | nil => intro _ st l o rest; rfl
  | cons x pre ih =>
      intro hsk st l o rest
      have hx : isSkippable x = true := hsk x (List.mem_cons_self x pre)
      have hrest : ∀ y ∈ pre, isSkippable y = true := fun y hy =>
        hsk y (List.mem_cons_of_mem x hy)
      cases x with
      | error e => simp [isSkippable] at hx
      | ok wl =>
          obtain ⟨op, o0⟩ := wl
          rw [List.cons_append]
          cases op with
          | unreachable => simp [isSkippable] at hx
          | endOp t => simp [isSkippable] at hx
          | start l0 => simp [isSkippable] at hx
          | declare l0 p0 hbc0 nc0 =>
              show skipBody (declareInsert st l0 p0 hbc0 nc0) _ = _
              exact ih hrest _ l o rest
          | const v => exact ih hrest st l o rest
          | dropOp r => exact ih hrest st l o rest
          | pick d => exact ih hrest st l o rest
          | swap d => exact ih hrest st l o rest

/-- C6.  `Start(l)` on a declared block with zero actual callers: with a
recorded convention this is the error `Block marked unreachable but has
been jumped to before`; without one the handler emits no code and pushes
no operator-offset entries, consumes operators up to and including the
next `End`/`Unreachable` (or the whole stream), still inserts every
`Declare` of the skipped region into the block table, and errs with
`New block started without previous block ending` if a nested `Start`
appears before any stopper. -/
theorem claim_C6 {L : Type} [DecidableEq L] (st : DriverSt L) (l : L)
    (body : List (BodyItem L)) (block : Block)
    (hfind : st.blocks.find (BrTarget.label l) = some block)
    (hzero : block.actualNumCallers = .zero) :
    (block.callingConvention.isSome →
      startStep st l body =
        .error (errS "Block marked unreachable but has been jumped to before")) ∧
    (block.callingConvention = none →
      (∀ st' rest, startStep st l body = .ok (st', rest) →
        st'.asmOffset = st.asmOffset ∧ st'.opOffsetMap = st.opOffsetMap ∧
        ∃ pre, body = pre ++ rest ∧
          ((rest = [] ∧ ∀ x ∈ pre, isSkippable x = true) ∨
           (∃ pre' z, pre = pre' ++ [z] ∧ isStopper z = true ∧
              ∀ x ∈ pre', isSkippable x = true)) ∧
          (∀ (l' : L) (p : Params) (hbc : Bool) (nc : NumCallers) (o : Nat),
            (Except.ok ⟨Operator.declare l' p hbc nc, o⟩ : BodyItem L) ∈ pre →
            (st'.blocks.find (BrTarget.label l')).isSome = true)) ∧
      (∀ (pre : List (BodyItem L)) (l' : L) (o : Nat)
          (rest' : List (BodyItem L)),
        body = pre ++ (Except.ok ⟨Operator.start l', o⟩ : BodyItem L) :: rest' →
        (∀ x ∈ pre, isSkippable x = true) →
        startStep st l body =
          .error (errS "New block started without previous block ending"))) := by
  have hred : ∀ (b : List (BodyItem L)),
      block.callingConvention = none →
      startStep st l b =
        skipBody
          { st with
            blocks := st.blocks.insert (BrTarget.label l)
              { block with isNext := false } }
          b := by
    intro b hnone
    unfold startStep
    rw [hfind]
    dsimp only []
    rw [hzero]
    rw [hnone]
    rfl
  constructor
  · intro hsome
    unfold startStep
    rw [hfind]
    dsimp only []
    rw [hzero]
    rw [hsome]
    rfl
  · intro hnone
    constructor
    · intro st' rest h
      rw [hred body hnone] at h
      obtain ⟨ha, hm⟩ := skipBody_fields _ _ _ _ h
      obtain ⟨pre, hb, hsplit, hdecl⟩ := skipBody_spec _ _ _ _ h
      exact ⟨ha, hm, pre, hb, hsplit, hdecl⟩
    · intro pre l' o rest' hb hall
      rw [hred body hnone, hb]
      exact skipBody_start_error pre hall _ l' o rest'



/-- A declared-but-never-branched-to block. -/
def wC6_block : Block :=
  ⟨BrTarget.label 7, none, 0, false, false, .many, .zero, false⟩

/-- A driver state holding only `wC6_block`. -/
def wC6_st : DriverSt WasmLabel :=
  { blocks := Blocks.empty.insert (BrTarget.label (3, NameTag.endTag)) wC6_block
    additional := []
    additionalOffset := 0
    internalId := 0
    nextLabel := 8
    opOffsetMap := []
    asmOffset := 3
    vstack := []
    offsetsSink := [] }

/-- A skipped region holding a constant, a nested `Declare`, the closing
`End` and one trailing operator. -/
def wC6_body : List (BodyItem WasmLabel) :=
  [Except.ok ⟨Operator.const (Value.i32 1), 9⟩,
   Except.ok ⟨Operator.declare (4, NameTag.endTag) [I32] false .many, 9⟩,
   Except.ok ⟨Operator.endOp ⟨[], ⟨BrTarget.ret, none⟩⟩, 9⟩,
   Except.ok ⟨Operator.const (Value.i32 2), 10⟩]

/-- The state and remaining stream the skip produces in the `wC6`
scenario. -/
def wC6_res : DriverSt WasmLabel × List (BodyItem WasmLabel) :=
  match startStep wC6_st (3, NameTag.endTag) wC6_body with
  | .ok r => r
  | .error _ => (wC6_st, [])

/-- C6 witness: skipping a concrete unreachable block. -/
theorem claim_C6_witness :
    wC6_st.blocks.find (BrTarget.label (3, NameTag.endTag)) = some wC6_block ∧
    wC6_block.actualNumCallers = .zero ∧
    wC6_block.callingConvention = none ∧
    startStep wC6_st (3, NameTag.endTag) wC6_body = .ok (wC6_res.1, wC6_res.2) ∧
    (wC6_res.1.asmOffset = wC6_st.asmOffset ∧
     wC6_res.1.opOffsetMap = wC6_st.opOffsetMap ∧
     ∃ pre, wC6_body = pre ++ wC6_res.2 ∧
       ((wC6_res.2 = [] ∧ ∀ x ∈ pre, isSkippable x = true) ∨
        (∃ pre' z, pre = pre' ++ [z] ∧ isStopper z = true ∧
           ∀ x ∈ pre', isSkippable x = true)) ∧
       (∀ (l' : WasmLabel) (p : Params) (hbc : Bool) (nc : NumCallers) (o : Nat),
         (Except.ok ⟨Operator.declare l' p hbc nc, o⟩ : BodyItem WasmLabel) ∈ pre →
         (wC6_res.1.blocks.find (BrTarget.label l')).isSome = true)) :=
  ⟨rfl, rfl, rfl, rfl,
    ((claim_C6 wC6_st (3, NameTag.endTag) wC6_body wC6_block rfl rfl).2
      rfl).1 wC6_res.1 wC6_res.2 rfl⟩


end Lightbeam

namespace Lightbeam

def retInvB {L : Type} (rs : List SignlessType) (bs : Blocks L) : Prop :=
  ∃ a, bs.find BrTarget.ret =
    some { returnBlock rs with actualNumCallers := a }

theorem retInvB_insert_label {L : Type} [DecidableEq L]
    (rs : List SignlessType) (bs : Blocks L) (l : L) (v : Block)
    (h : retInvB rs bs) : retInvB rs (bs.insert (BrTarget.label l) v) := by
  obtain ⟨a, ha⟩ := h
  refine ⟨a, ?_⟩
  rw [Blocks.find_insert_ne _ _ _ _ (fun hh => BrTarget.noConfusion hh)]
  exact ha

theorem retInvB_remove_label {L : Type} [DecidableEq L]
    (rs : List SignlessType) (bs : Blocks L) (l : L)
    (h : retInvB rs bs) : retInvB rs (bs.remove (BrTarget.label l)) := by
  obtain ⟨a, ha⟩ := h
  refine ⟨a, ?_⟩
  rw [Blocks.find_remove_ne _ _ _ (fun hh => BrTarget.noConfusion hh)]
  exact ha

theorem reconcileDepth_emitted (cd bd : Option Nat) (nd : Option Nat)
    (h : reconcileDepth cd bd true = .ok nd) : nd = bd := by
  unfold reconcileDepth at h
  cases bd with
  | none => cases h; rfl
  | some b =>
      dsimp only [] at h
      cases cd with
      | none => cases h
      | some a =>
          dsimp only [] at h
          by_cases hab : a = b
          · rw [if_pos hab] at h; cases h; rfl
          · rw [if_neg hab] at h
            cases h

theorem retInvB_insert_reconciled {L : Type} [DecidableEq L]
    (rs : List SignlessType) (bs : Blocks L) (t : BrTarget L)
    (block : Block) (blockCC : CC) (cd : Option Nat) (nd : Option Nat)
    (hfind : bs.find t = some block)
    (hcc : block.callingConvention = some blockCC)
    (hrd : reconcileDepth cd blockCC.depth block.alreadyEmitted = .ok nd)
    (hinv : retInvB rs bs) :
    retInvB rs (bs.insert t
      { block with callingConvention := some { blockCC with depth := nd } }) := by
  by_cases ht : t = BrTarget.ret
  · subst ht
    obtain ⟨a, ha⟩ := hinv
    rw [ha] at hfind
    have hb : block = { returnBlock rs with actualNumCallers := a } := by
      cases hfind; rfl
    have hem : block.alreadyEmitted = true := by rw [hb]; rfl
    rw [hem] at hrd
    have hnd : nd = blockCC.depth := reconcileDepth_emitted cd blockCC.depth nd hrd
    have hccfix : { blockCC with depth := nd } = blockCC := by
      rw [hnd]
    have hsame : { block with
        callingConvention := some { blockCC with depth := nd } } = block := by
      rw [hccfix, ← hcc]
    rw [hsame]
    refine ⟨a, ?_⟩
    rw [Blocks.find_insert_self]
    rw [hb]
  · obtain ⟨a, ha⟩ := hinv
    refine ⟨a, ?_⟩
    rw [Blocks.find_insert_ne _ _ _ _ (fun hh => ht hh.symm)]
    exact ha

end Lightbeam

namespace Lightbeam

theorem processTarget_retInv {L : Type} [DecidableEq L] [MakeInternalLabel L]
    (rs : List SignlessType) (params : Nat) (acc acc' : EndAcc L)
    (t t' : BrTargetDrop L) (h : processTarget params acc t = .ok (acc', t'))
    (hinv : retInvB rs acc.blocks) : retInvB rs acc'.blocks := by
  unfold processTarget at h
  cases hfind : acc.blocks.find t.target with
  | none => rw [hfind] at h; cases h
  | some block =>
      rw [hfind] at h
      dsimp only [] at h
      cases hcc : block.callingConvention with
      | none =>
          rw [hcc] at h
          dsimp only [] at h
          cases h
          exact hinv
      | some blockCC =>
          rw [hcc] at h
          cases hccand : acc.ccAndToDrop with
          | none =>
              rw [hccand] at h
              dsimp only [] at h
              cases h
              exact hinv
          | some pr =>
              obtain ⟨cc, toDrop⟩ := pr
              rw [hccand] at h
              dsimp only [] at h
              cases hrd : reconcileDepth cc.depth blockCC.depth
                  block.alreadyEmitted with
              | error e => rw [hrd] at h; cases h
              | ok nd =>
                  rw [hrd] at h
                  dsimp only [] at h
                  have hmid : retInvB rs (acc.blocks.insert t.target
                      { block with
                        callingConvention := some { blockCC with depth := nd } }) :=
                    retInvB_insert_reconciled rs acc.blocks t.target block
                      blockCC cc.depth nd hfind hcc hrd hinv
                  cases hbl : ccToParamLocs params { blockCC with depth := nd }
                      t.toDrop with
                  | none =>
                      rw [hbl] at h
                      cases hcl : ccToParamLocs params cc toDrop with
                      | none => rw [hcl] at h; cases h
                      | some curLocs => rw [hcl] at h; cases h
                  | some blockLocs =>
                      rw [hbl] at h
                      cases hcl : ccToParamLocs params cc toDrop with
                      | none => rw [hcl] at h; cases h
                      | some curLocs =>
                          rw [hcl] at h
                          try dsimp only [] at h
                          by_cases hag : locsAgree blockLocs curLocs = true
                          · rw [if_pos hag] at h
                            cases hb2 : (acc.blocks.insert t.target
                                { block with
                                  callingConvention :=
                                    some { blockCC with depth := nd } }).find
                                t.target with
                            | none => rw [hb2] at h; cases h
                            | some b2 =>
                                rw [hb2] at h
                                cases h
                                exact hmid
                          · rw [if_neg hag] at h
                            cases hni : MakeInternalLabel.newInternal (L := L)
                                acc.internalId with
                            | mk nl nid =>
                                rw [hni] at h
                                dsimp only [] at h
                                cases hb2 : ((acc.blocks.insert t.target
                                    { block with
                                      callingConvention :=
                                        some { blockCC with depth := nd } }).insert
                                    (BrTarget.label nl)
                                    { label := BrTarget.label acc.nextLabel
                                      callingConvention := none
                                      params := block.params + rangeCount t.toDrop
                                      isNext := false
                                      alreadyEmitted := false
                                      numCallers := NumCallers.one
                                      actualNumCallers := NumCallers.zero
                                      hasBackwardsCallers := false }).find
                                    (BrTarget.label nl) with
                                | none => rw [hb2] at h; cases h
                                | some b2 =>
                                    rw [hb2] at h
                                    cases h
                                    exact retInvB_insert_label rs _ _ _ hmid

end Lightbeam

namespace Lightbeam

theorem endReconcile_retInv {L : Type} [DecidableEq L] [MakeInternalLabel L]
    (rs : List SignlessType) (params : Nat) :
    ∀ (ts : List (BrTargetDrop L)) (acc0 : EndAcc L)
      (done : List (BrTargetDrop L)) (acc : EndAcc L)
      (targets : List (BrTargetDrop L)),
      ts.foldlM
        (fun s t =>
          (processTarget params s.1 t).map fun r => (r.1, s.2 ++ [r.2]))
        (acc0, done) = .ok (acc, targets) →
      retInvB rs acc0.blocks → retInvB rs acc.blocks := by
  intro ts
  induction ts with
  | nil =>
      intro acc0 done acc targets h hinv
      simp only [List.foldlM_nil] at h
      cases h
      exact hinv
  | cons t ts ih =>
      intro acc0 done acc targets h hinv
      rw [List.foldlM_cons] at h
      cases hp : processTarget params acc0 t with
      | error e =>
          rw [hp] at h
          cases h
      | ok r =>
          rw [hp] at h
          obtain ⟨acc1, t1⟩ := r
          exact ih acc1 (done ++ [t1]) acc targets h
            (processTarget_retInv rs params acc0 acc1 t t1 hp hinv)

theorem retInvB_insert_ne_ret {L : Type} [DecidableEq L]
    (rs : List SignlessType) (bs : Blocks L) (k : BrTarget L) (v : Block)
    (hk : ¬ k = BrTarget.ret) (h : retInvB rs bs) :
    retInvB rs (bs.insert k v) := by
  obtain ⟨a, ha⟩ := h
  refine ⟨a, ?_⟩
  rw [Blocks.find_insert_ne _ _ _ _ (fun hh => hk hh.symm)]
  exact ha

theorem propagateTarget_retInv {L : Type} [DecidableEq L]
    (rs : List SignlessType) (cc : CC) (bs bs' : Blocks L)
    (t : BrTargetDrop L) (h : propagateTarget cc bs t = .ok bs')
    (hinv : retInvB rs bs) : retInvB rs bs' := by
  unfold propagateTarget at h
  cases hfind : bs.find t.target with
  | none => rw [hfind] at h; cases h
  | some block =>
      rw [hfind] at h
      dsimp only [] at h
      cases hcc : block.callingConvention with
      | some bcc =>
          rw [hcc] at h
          dsimp only [] at h
          cases hbd : bcc.depth with
          | none => rw [hbd] at h; cases h; exact hinv
          | some b =>
              rw [hbd] at h
              dsimp only [] at h
              cases hcd : cc.depth with
              | none => rw [hcd] at h; cases h
              | some a =>
                  rw [hcd] at h
                  dsimp only [] at h
                  by_cases hab : a = b
                  · rw [if_pos hab] at h; cases h; exact hinv
                  · rw [if_neg hab] at h; cases h
      | none =>
          rw [hcc] at h
          dsimp only [] at h
          cases h
          by_cases ht : t.target = BrTarget.ret
          · obtain ⟨a, ha⟩ := hinv
            rw [ht] at hfind
            rw [ha] at hfind
            cases hfind
            cases hcc
          · exact retInvB_insert_ne_ret rs _ _ _ ht hinv

theorem foldlM_propagate_retInv {L : Type} [DecidableEq L]
    (rs : List SignlessType) (cc : CC) :
    ∀ (ts : List (BrTargetDrop L)) (bs bs' : Blocks L),
      ts.foldlM (propagateTarget cc) bs = .ok bs' →
      retInvB rs bs → retInvB rs bs' := by
  intro ts
  induction ts with
  | nil =>
      intro bs bs' h hinv
      simp only [List.foldlM_nil] at h
      cases h
      exact hinv
  | cons t ts ih =>
      intro bs bs' h hinv
      rw [List.foldlM_cons] at h
      cases hp : propagateTarget cc bs t with
      | error e => rw [hp] at h; cases h
      | ok bs1 =>
          rw [hp] at h
          exact ih bs1 bs' h (propagateTarget_retInv rs cc bs bs1 t hp hinv)

theorem incCaller_retInv {L : Type} [DecidableEq L] (rs : List SignlessType)
    (bs : Blocks L) (t : BrTarget L) (hinv : retInvB rs bs) :
    retInvB rs (incCaller bs t) := by
  unfold incCaller
  cases hfind : bs.find t with
  | none => exact hinv
  | some b =>
      by_cases ht : t = BrTarget.ret
      · subst ht
        obtain ⟨a, ha⟩ := hinv
        rw [ha] at hfind
        cases hfind
        refine ⟨a.incremented, ?_⟩
        rw [Blocks.find_insert_self]
      · obtain ⟨a, ha⟩ := hinv
        refine ⟨a, ?_⟩
        rw [Blocks.find_insert_ne _ _ _ _ (fun hh => ht hh.symm)]
        exact ha

theorem accountCallers_retInv {L : Type} [DecidableEq L]
    (rs : List SignlessType) (bs : Blocks L) (ts : List (BrTarget L))
    (hinv : retInvB rs bs) : retInvB rs (accountCallers bs ts) := by
  unfold accountCallers
  generalize ts.dedup = l
  induction l generalizing bs with
  | nil => exact hinv
  | cons k l ih =>
      rw [List.foldl_cons]
      exact ih (incCaller bs k) (incCaller_retInv rs bs k hinv)

end Lightbeam

namespace Lightbeam

theorem declareInsert_retInv {L : Type} [DecidableEq L] (rs : List SignlessType)
    (st : DriverSt L) (l : L) (p : Params) (hbc : Bool) (nc : NumCallers)
    (hinv : retInvB rs st.blocks) :
    retInvB rs ((declareInsert st l p hbc nc).blocks) := by
  unfold declareInsert
  exact retInvB_insert_label rs _ _ _ hinv

theorem skipBody_retInv {L : Type} [DecidableEq L] (rs : List SignlessType) :
    ∀ (body : List (BodyItem L)) (st st' : DriverSt L)
      (rest : List (BodyItem L)),
      skipBody st body = .ok (st', rest) →
      retInvB rs st.blocks → retInvB rs st'.blocks := by
  intro body
  induction body with
  | nil =>
      intro st st' rest h hinv
      cases h
      exact hinv
  | cons x body ih =>
      intro st st' rest h hinv
      unfold skipBody at h
      cases x with
      | error e => cases h
      | ok wl =>
          dsimp only [] at h
          cases hop : wl.op <;> rw [hop] at h <;> dsimp only [] at h
          · cases h; exact hinv
          · rename_i l0 p0 hbc0 nc0
            exact ih (declareInsert st l0 p0 hbc0 nc0) st' rest h
              (declareInsert_retInv rs st l0 p0 hbc0 nc0 hinv)
          · cases h
          · cases h; exact hinv
          · exact ih st st' rest h hinv
          · exact ih st st' rest h hinv
          · exact ih st st' rest h hinv
          · exact ih st st' rest h hinv

theorem startStep_retInv {L : Type} [DecidableEq L] (rs : List SignlessType)
    (st st' : DriverSt L) (l : L) (body rest : List (BodyItem L))
    (h : startStep st l body = .ok (st', rest))
    (hinv : retInvB rs st.blocks) : retInvB rs st'.blocks := by
  unfold startStep at h
  cases hfind : st.blocks.find (BrTarget.label l) with
  | none => rw [hfind] at h; cases h
  | some block0 =>
      rw [hfind] at h
      dsimp only [] at h
      have hinv1 : retInvB rs (st.blocks.insert (BrTarget.label l)
          { block0 with isNext := false }) :=
        retInvB_insert_label rs _ _ _ hinv
      by_cases hz : block0.actualNumCallers.isZero = true
      · rw [if_pos hz] at h
        by_cases hs : block0.callingConvention.isSome = true
        · rw [if_pos hs] at h; cases h
        · rw [if_neg hs] at h
          exact skipBody_retInv rs body _ st' rest h hinv1
      · rw [if_neg hz] at h
        cases hlb : block0.label with
        | ret => rw [hlb] at h; cases h
        | label asmL =>
            rw [hlb] at h
            dsimp only [] at h
            cases hcc : block0.callingConvention with
            | none => rw [hcc] at h; cases h
            | some cc =>
                rw [hcc] at h
                dsimp only [] at h
                by_cases hbc : block0.hasBackwardsCallers = true
                · rw [if_pos hbc] at h
                  cases h
                  exact retInvB_insert_label rs _ _ _
                    (retInvB_insert_label rs _ _ _ hinv)
                · rw [if_neg hbc] at h
                  cases h
                  exact retInvB_remove_label rs _ _
                    (retInvB_insert_label rs _ _ _
                      (retInvB_insert_label rs _ _ _ hinv))

theorem endStep_retInv {L : Type} [DecidableEq L] [MakeInternalLabel L]
    (rs : List SignlessType) (st st' : DriverSt L) (offset : Nat)
    (ts : List (BrTargetDrop L)) (d : BrTargetDrop L)
    (h : endStep st offset ts d = .ok st')
    (hinv : retInvB rs st.blocks) : retInvB rs st'.blocks := by
  unfold endStep at h
  cases hfind : st.blocks.find d.target with
  | none => rw [hfind] at h; cases h
  | some defBlock =>
      rw [hfind] at h
      dsimp only [] at h
      cases hrec : endReconcile (endParams d defBlock) (endAcc0 st d defBlock)
          ts with
      | error e => rw [hrec] at h; cases h
      | ok pr =>
          obtain ⟨acc, targets⟩ := pr
          rw [hrec] at h
          dsimp only [] at h
          have hacc : retInvB rs acc.blocks := by
            unfold endReconcile at hrec
            exact endReconcile_retInv rs (endParams d defBlock) ts
              (endAcc0 st d defBlock) [] acc targets hrec hinv
          cases hser : endSerialize st.vstack (endParams d defBlock) acc with
          | error e => rw [hser] at h; cases h
          | ok tri =>
              obtain ⟨cc, sel, vs⟩ := tri
              rw [hser] at h
              dsimp only [] at h
              cases hprop : (targets ++ [d]).foldlM (propagateTarget cc)
                  acc.blocks with
              | error e => rw [hprop] at h; cases h
              | ok bs =>
                  rw [hprop] at h
                  dsimp only [] at h
                  have hbs : retInvB rs bs :=
                    foldlM_propagate_retInv rs cc (targets ++ [d]) acc.blocks
                      bs hprop hacc
                  have hacct : retInvB rs (accountCallers bs
                      ((targets ++ [d]).map (·.target))) :=
                    accountCallers_retInv rs bs _ hbs
                  cases hdf : (accountCallers bs
                      ((targets ++ [d]).map (·.target))).find d.target with
                  | none => rw [hdf] at h; cases h
                  | some b2 =>
                      rw [hdf] at h
                      cases h
                      exact hacct

theorem nextOp_blocks {L : Type} (st st1 : DriverSt L)
    (body body1 : List (BodyItem L)) (x : BodyItem L)
    (h : nextOp st body = some (x, st1, body1)) : st1.blocks = st.blocks := by
  unfold nextOp at h
  cases ha : st.additional with
  | cons o rest => rw [ha] at h; cases h; rfl
  | nil =>
      rw [ha] at h
      cases body with
      | nil => cases h
      | cons y rest => cases h; rfl

theorem stepPeek_retInv {L : Type} [DecidableEq L] (rs : List SignlessType)
    (st st2 : DriverSt L) (body : List (BodyItem L))
    (h : stepPeek st body = .ok st2) (hinv : retInvB rs st.blocks) :
    retInvB rs st2.blocks := by
  unfold stepPeek at h
  split at h
  · split at h
    · cases h
    · cases h
      exact retInvB_insert_label rs _ _ _ hinv
  · cases h
    exact hinv

theorem dispatch_retInv {L : Type} [DecidableEq L] [MakeInternalLabel L]
    (rs : List SignlessType) (st st' : DriverSt L) (op : Operator L)
    (offset : Nat) (body rest : List (BodyItem L))
    (h : dispatch st op offset body = .ok (st', rest))
    (hinv : retInvB rs st.blocks) : retInvB rs st'.blocks := by
  unfold dispatch at h
  cases op with
  | unreachable => cases h; exact hinv
  | start l => exact startStep_retInv rs st st' l body rest h hinv
  | declare l p hbc nc => cases h; exact declareInsert_retInv rs st l p hbc nc hinv
  | endOp t =>
      dsimp only [] at h
      cases he : endStep st offset t.targets t.default with
      | error e => rw [he] at h; cases h
      | ok st2 =>
          rw [he] at h
          cases h
          exact endStep_retInv rs st _ offset t.targets t.default he hinv
  | const v => cases h; exact hinv
  | dropOp r => cases h; exact hinv
  | pick d =>
      dsimp only [] at h
      cases hg : st.vstack.get? (st.vstack.length - 1 - d) with
      | none => rw [hg] at h; cases h
      | some v => rw [hg] at h; cases h; exact hinv
  | swap d =>
      dsimp only [] at h
      cases hg1 : st.vstack.getLast? with
      | none =>
          rw [hg1] at h
          cases hg2 : st.vstack.get? (st.vstack.length - 1 - d) with
          | none => rw [hg2] at h; cases h
          | some v => rw [hg2] at h; cases h
      | some top =>
          rw [hg1] at h
          cases hg2 : st.vstack.get? (st.vstack.length - 1 - d) with
          | none => rw [hg2] at h; cases h
          | some v => rw [hg2] at h; cases h; exact hinv

theorem loopGo_retInv {L : Type} [DecidableEq L] [MakeInternalLabel L]
    (rs : List SignlessType) :
    ∀ (fuel : Nat) (st : DriverSt L) (body : List (BodyItem L)),
      retInvB rs st.blocks → retInvB rs ((loopGo fuel st body).state).blocks := by
  intro fuel
  induction fuel with
  | zero => intro st body hinv; exact hinv
  | succ fuel ih =>
      intro st body hinv
      unfold loopGo
      cases hno : nextOp st body with
      | none => exact hinv
      | some trip =>
          obtain ⟨x, st1, body1⟩ := trip
          have hb1 : st1.blocks = st.blocks := nextOp_blocks st st1 body body1 x hno
          dsimp only []
          cases x with
          | error e => rw [hb1]; exact hinv
          | ok wl =>
              dsimp only []
              cases hpk : stepPeek { st1 with
                  offsetsSink := st1.offsetsSink ++ [(wl.offset, st1.asmOffset)] }
                  body1 with
              | error e =>
                  dsimp only []
                  rw [hb1]
                  exact hinv
              | ok st3 =>
                  dsimp only []
                  have hinv3 : retInvB rs st3.blocks := by
                    refine stepPeek_retInv rs _ st3 body1 hpk ?_
                    show retInvB rs st1.blocks
                    rw [hb1]
                    exact hinv
                  cases hd : dispatch { st3 with
                      opOffsetMap := st3.opOffsetMap ++
                        [(st3.asmOffset, OpFmt.op wl.op wl.offset)] }
                      wl.op wl.offset body1 with
                  | error e => dsimp only []; exact hinv3
                  | ok pr =>
                      obtain ⟨st5, body5⟩ := pr
                      dsimp only []
                      refine ih st5 body5 ?_
                      refine dispatch_retInv rs _ st5 wl.op wl.offset body1
                        body5 hd ?_
                      show retInvB rs st3.blocks
                      exact hinv3

end Lightbeam

namespace Lightbeam

/-- Seeded driver state used by the C10 witness: the block table holds only
the `BrTarget.ret` entry installed at function start. -/
def wC10_st : DriverSt WasmLabel :=
  { blocks := Blocks.empty.insert BrTarget.ret (returnBlock [I32])
    additional := []
    additionalOffset := 0
    internalId := 0
    nextLabel := 0
    opOffsetMap := []
    asmOffset := 0
    vstack := []
    offsetsSink := [] }

/-- C10: before processing any operator of an accepted function,
`translate` has seeded the block table with a `BrTarget.ret` entry
(function_body.rs lines 188-205) whose `params` is the result count,
`already_emitted = true`, `num_callers = Many`,
`has_backwards_callers = false` and whose calling convention is the
function-start return-location convention (so an `End` naming the return
target always finds a recorded convention); and the driver loop preserves
the Return entry verbatim apart from the `actual_num_callers` counter: it
is never removed and none of the other fields ever change. -/
theorem claim_C10 {L : Type} [DecidableEq L] [MakeInternalLabel L] :
    (∀ (session : Session L) (funcIdx : Nat) (funcType : FuncType)
        (body : List (BodyItem L)),
      funcType.returns.length ≤ 1 →
      (translate 0 session funcIdx funcType body).state.blocks.find
          BrTarget.ret = some (returnBlock funcType.returns) ∧
      (returnBlock funcType.returns).params = funcType.returns.length ∧
      (returnBlock funcType.returns).alreadyEmitted = true ∧
      (returnBlock funcType.returns).numCallers = NumCallers.many ∧
      (returnBlock funcType.returns).hasBackwardsCallers = false ∧
      (returnBlock funcType.returns).callingConvention =
        some (ccFunctionStart (retLocs funcType.returns))) ∧
    (∀ (rs : List SignlessType) (fuel : Nat) (st : DriverSt L)
        (body : List (BodyItem L)),
      retInvB rs st.blocks →
      ∃ a, ((loopGo fuel st body).state).blocks.find BrTarget.ret =
        some { returnBlock rs with actualNumCallers := a }) := by
  constructor
  · intro session funcIdx funcType body hle
    have hc : ¬ 1 < funcType.returns.length := by omega
    refine ⟨?_, rfl, rfl, rfl, rfl, rfl⟩
    simp only [translate, if_neg hc, loopGo]
    exact Blocks.find_insert_self _ _ _
  · intro rs fuel st body hinv
    exact loopGo_retInv rs fuel st body hinv

/-- Witness for C10: the return-arity bound and the Return-table invariant
hold at a concrete seeded state, and the theorem yields both the seeded
entry and its preservation across a four-step loop run. -/
theorem claim_C10_witness :
    (([I32] : List SignlessType).length ≤ 1 ∧
      retInvB [I32] wC10_st.blocks) ∧
    (translate (L := WasmLabel) 0 { opOffsetMap := [], asmOffset := 0 } 0
        { params := [], returns := [I32] } []).state.blocks.find
        BrTarget.ret = some (returnBlock [I32]) ∧
    ∃ a, ((loopGo (L := WasmLabel) 4 wC10_st []).state).blocks.find
        BrTarget.ret = some { returnBlock [I32] with actualNumCallers := a } :=
  ⟨⟨by decide, ⟨NumCallers.zero, rfl⟩⟩,
   ((claim_C10 (L := WasmLabel)).1 { opOffsetMap := [], asmOffset := 0 } 0
      { params := [], returns := [I32] } [] (by decide)).1,
   (claim_C10 (L := WasmLabel)).2 [I32] 4 wC10_st [] ⟨NumCallers.zero, rfl⟩⟩

end Lightbeam
